/-
Verification development for the two updater scripts of the
rhoai-component-infra repository:

  .github/scripts/update_vllm_repositories.py      ("build-argument" pipeline)
  .github/scripts/update_odh_runtime_versions.py   ("annotation" pipeline)

The scripts are shallowly embedded: file contents are `List Char`, the
filesystem of a cloned working copy is an association list, and every
side effect (file write, git operation, PR-API call, temp-dir handling)
is recorded in an explicit effect trace.  The two `re.sub` based patch
functions are embedded by a deterministic matcher that implements the
leftmost/greedy backtracking semantics of the Python regular expressions

  vllm : ^(\s*ARG\s+VLLM_VERSION\s*=\s*)(["']?)([^"'\r\n]+)(\2)(\s*)$
  odh  : ^(\s*opendatahub\.io/runtime-version\s*:\s*)(["']?)([^"'\r\n]+)(\2)(\s*)$

with re.MULTILINE.  The embedding works line by line (split on '\n').
This is extensionally equal to Python's whole-text `re.sub`: the only
places where a match could cross a line boundary are the leading `\s*`
of group 1 and the trailing `(\s*)$` group, and both groups are copied
verbatim into the replacement, while whitespace-only text skipped that
way can never itself contain a match of either pattern (each pattern
requires the non-whitespace literal `ARG` resp. the annotation key).
-/
import Mathlib

namespace RhoaiInfra

/-! ## Character classes of the regular expressions

`pySpace` is Python's `\s` (restricted to the characters that can occur
at all; `re` additionally treats a few unicode spaces as `\s`, but both
patterns are only ever applied to ASCII manifest lines — and the class
is used uniformly, so this choice is part of the embedding, not a
simplification of one claim).  `valueChar` is the class `[^"'\r\n]` of
the value group, `isQuoteCh` the class `["']` of the quote group. -/

def pySpace (c : Char) : Bool :=
  c = ' ' || c = '\t' || c = '\n' || c = '\r' || c = '\x0b' || c = '\x0c'

def isQuoteCh (c : Char) : Bool :=
  c = '"' || c = '\''

def valueChar (c : Char) : Bool :=
  !(c = '"' || c = '\'' || c = '\r' || c = '\n')

theorem valueChar_of_quote {c : Char} (h : isQuoteCh c = true) : valueChar c = false := by
  rcases Bool.or_eq_true _ _ |>.mp h with h1 | h1 <;>
    simp [valueChar, of_decide_eq_true h1]

/-! ## Generic list lemmas used by the matcher proofs -/

theorem mem_takeWhile {p : Char → Bool} :
    ∀ {xs : List Char} {c : Char}, c ∈ xs.takeWhile p → p c = true := by
  intro xs
  induction xs with
  | nil => intro c h; simp [List.takeWhile] at h
  | cons x xs ih =>
    intro c h
    simp only [List.takeWhile] at h
    cases hx : p x with
    | false => rw [hx] at h; simp at h
    | true =>
      rw [hx] at h
      rcases List.mem_cons.mp h with rfl | h
      · exact hx
      · exact ih h

theorem takeWhile_all {p : Char → Bool} {xs : List Char}
    (h : ∀ c ∈ xs, p c = true) : xs.takeWhile p = xs := by
  induction xs with
  | nil => rfl
  | cons x xs ih =>
    simp only [List.takeWhile, h x (List.mem_cons_self x xs)]
    exact congrArg (x :: ·) (ih fun c hc => h c (List.mem_cons_of_mem x hc))

theorem dropWhile_all {p : Char → Bool} {xs : List Char}
    (h : ∀ c ∈ xs, p c = true) : xs.dropWhile p = [] := by
  induction xs with
  | nil => rfl
  | cons x xs ih =>
    simp only [List.dropWhile, h x (List.mem_cons_self x xs)]
    exact ih fun c hc => h c (List.mem_cons_of_mem x hc)

theorem takeWhile_append_stop {p : Char → Bool} {xs ys : List Char}
    (h1 : ∀ c ∈ xs, p c = true)
    (h2 : ys = [] ∨ ∃ y t, ys = y :: t ∧ p y = false) :
    (xs ++ ys).takeWhile p = xs := by
  induction xs with
  | nil =>
    rcases h2 with rfl | ⟨y, t, rfl, hy⟩
    · rfl
    · simp [List.takeWhile, hy]
  | cons x xs ih =>
    simp only [List.cons_append, List.takeWhile, h1 x (List.mem_cons_self x xs)]
    exact congrArg (x :: ·) (ih fun c hc => h1 c (List.mem_cons_of_mem x hc))

theorem dropWhile_append_stop {p : Char → Bool} {xs ys : List Char}
    (h1 : ∀ c ∈ xs, p c = true)
    (h2 : ys = [] ∨ ∃ y t, ys = y :: t ∧ p y = false) :
    (xs ++ ys).dropWhile p = ys := by
  induction xs with
  | nil =>
    rcases h2 with rfl | ⟨y, t, rfl, hy⟩
    · rfl
    · simp [List.dropWhile, hy]
  | cons x xs ih =>
    simp only [List.cons_append, List.dropWhile, h1 x (List.mem_cons_self x xs)]
    exact ih fun c hc => h1 c (List.mem_cons_of_mem x hc)

theorem dropWhile_head_false {p : Char → Bool} :
    ∀ {xs y : List Char} {c : Char}, xs.dropWhile p = c :: y → p c = false := by
  intro xs
  induction xs with
  | nil => intro y c h; simp [List.dropWhile] at h
  | cons x xs ih =>
    intro y c h
    simp only [List.dropWhile] at h
    cases hx : p x with
    | false => rw [hx] at h; cases h; exact hx
    | true => rw [hx] at h; exact ih h

/-! ## Splitting file contents into lines and joining them back

These model how `re.MULTILINE` partitions the subject text at `'\n'`
(`^` matches at the start of the text and after each `'\n'`; `$`
matches at the end of the text and before each `'\n'`). -/

def splitLines : List Char → List (List Char)
  | [] => [[]]
  | c :: cs =>
    if c = '\n' then [] :: splitLines cs
    else
      match splitLines cs with
      | [] => [[c]]
      | l :: ls => (c :: l) :: ls

def joinLines : List (List Char) → List Char
  | [] => []
  | [l] => l
  | l :: l' :: ls => l ++ '\n' :: joinLines (l' :: ls)

theorem splitLines_ne_nil (cs : List Char) : splitLines cs ≠ [] := by
  induction cs with
  | nil => simp [splitLines]
  | cons c cs ih =>
    simp only [splitLines]
    by_cases h : c = '\n'
    · simp [h]
    · simp only [h, if_false]
      cases hs : splitLines cs with
      | nil => simp
      | cons l ls => simp

theorem joinLines_splitLines (cs : List Char) : joinLines (splitLines cs) = cs := by
  induction cs with
  | nil => rfl
  | cons c cs ih =>
    simp only [splitLines]
    by_cases h : c = '\n'
    · subst h
      simp only [if_pos rfl]
      cases hs : splitLines cs with
      | nil => exact absurd hs (splitLines_ne_nil cs)
      | cons l ls =>
        rw [hs] at ih
        simpa [joinLines] using congrArg (List.cons '\n') ih
    · simp only [h, if_false]
      cases hs : splitLines cs with
      | nil => exact absurd hs (splitLines_ne_nil cs)
      | cons l ls =>
        rw [hs] at ih
        cases ls with
        | nil => simpa [joinLines] using congrArg (List.cons c) ih
        | cons l2 ls2 => simpa [joinLines] using congrArg (List.cons c) ih

theorem no_newline_mem_splitLines :
    ∀ {cs l : List Char}, l ∈ splitLines cs → '\n' ∉ l := by
  intro cs
  induction cs with
  | nil =>
    intro l h
    simp only [splitLines, List.mem_singleton] at h
    subst h; simp
  | cons c cs ih =>
    intro l h
    simp only [splitLines] at h
    by_cases hc : c = '\n'
    · rw [if_pos hc] at h
      rcases List.mem_cons.mp h with rfl | h
      · simp
      · exact ih h
    · rw [if_neg hc] at h
      cases hs : splitLines cs with
      | nil => exact absurd hs (splitLines_ne_nil cs)
      | cons l0 ls =>
        rw [hs] at h
        rcases List.mem_cons.mp h with rfl | h
        · intro hmem
          rcases List.mem_cons.mp hmem with h1 | h1
          · exact hc h1.symm
          · exact ih (hs ▸ List.mem_cons_self l0 ls) h1
        · exact ih (hs ▸ List.mem_cons_of_mem l0 h)

theorem splitLines_no_newline {l : List Char} (h : '\n' ∉ l) :
    splitLines l = [l] := by
  induction l with
  | nil => rfl
  | cons c cs ih =>
    have hc : c ≠ '\n' := fun hc => h (hc ▸ List.mem_cons_self c cs)
    have hcs : '\n' ∉ cs := fun hm => h (List.mem_cons_of_mem c hm)
    simp only [splitLines, if_neg hc, ih hcs]

theorem splitLines_append_newline {l r : List Char} (h : '\n' ∉ l) :
    splitLines (l ++ '\n' :: r) = l :: splitLines r := by
  induction l with
  | nil => simp [splitLines]
  | cons c cs ih =>
    have hc : c ≠ '\n' := fun hc => h (hc ▸ List.mem_cons_self c cs)
    have hcs : '\n' ∉ cs := fun hm => h (List.mem_cons_of_mem c hm)
    rw [List.cons_append]
    simp only [splitLines, if_neg hc]
    rw [ih hcs]

theorem splitLines_joinLines :
    ∀ {ls : List (List Char)}, ls ≠ [] → (∀ l ∈ ls, '\n' ∉ l) →
      splitLines (joinLines ls) = ls := by
  intro ls
  induction ls with
  | nil => intro h; exact absurd rfl h
  | cons l ls ih =>
    intro _ hall
    cases ls with
    | nil =>
      simp only [joinLines]
      exact splitLines_no_newline (hall l (List.mem_cons_self l []))
    | cons l2 ls2 =>
      simp only [joinLines]
      rw [splitLines_append_newline (hall l (List.mem_cons_self l _))]
      exact congrArg (l :: ·)
        (ih (by simp) fun x hx => hall x (List.mem_cons_of_mem l hx))

/-! ## Matching a literal -/

/-- Strip a literal character sequence (an escaped literal part of the
regular expression, e.g. `ARG` or `opendatahub.io/runtime-version`)
from the front of the input. -/
def stripLit : List Char → List Char → Option (List Char)
  | [], s => some s
  | _ :: _, [] => none
  | c :: cs, d :: ds => if d = c then stripLit cs ds else none

theorem stripLit_append (lit r : List Char) : stripLit lit (lit ++ r) = some r := by
  induction lit with
  | nil => rfl
  | cons c cs ih => simp [stripLit, ih]

theorem stripLit_sound :
    ∀ {lit s r : List Char}, stripLit lit s = some r → s = lit ++ r := by
  intro lit
  induction lit with
  | nil => intro s r h; cases h; rfl
  | cons c cs ih =>
    intro s r h
    cases s with
    | nil => simp [stripLit] at h
    | cons d ds =>
      simp only [stripLit] at h
      by_cases hd : d = c
      · rw [if_pos hd] at h
        subst hd
        exact congrArg (d :: ·) (ih h)
      · rw [if_neg hd] at h; cases h

/-! ## The tail of both patterns: `(["']?)([^"'\r\n]+)(\2)(\s*)$`

`matchTail` decides whether this suffix pattern matches a given tail of
a line exactly (up to the line end), and returns the three capture
groups.  The Python backtracking is deterministic here:

* if the first character is a quote, `(["']?)` commits to it — the value
  group cannot start with a quote, so the empty alternative of `?`
  cannot succeed either — the value group is then the maximal run of
  `[^"'\r\n]` (shrinking it cannot help, because the backreference
  requires a quote character next, and every shrunk position faces a
  value-class character), the backreference must match the same quote,
  and `(\s*)$` succeeds iff the rest of the line is whitespace;
* otherwise `(["']?)` matches the empty string, the value group is the
  maximal run of `[^"'\r\n]` (shrinking cannot help: the remainder must
  be all whitespace to reach `$`, and the characters given back are
  value-class characters followed by the same blocked remainder), and
  `(\s*)$` succeeds iff the rest is whitespace. -/

structure TailMatch where
  quote : Option Char
  value : List Char
  trail : List Char
  deriving DecidableEq, Repr

def matchTail (s : List Char) : Option TailMatch :=
  match s with
  | [] => none
  | c :: t =>
    if isQuoteCh c then
      let v := t.takeWhile valueChar
      match t.dropWhile valueChar with
      | c2 :: u =>
        if v ≠ [] ∧ c2 = c ∧ (∀ x ∈ u, pySpace x = true) then
          some ⟨some c, v, u⟩
        else none
      | [] => none
    else
      let v := s.takeWhile valueChar
      let r := s.dropWhile valueChar
      if v ≠ [] ∧ (∀ x ∈ r, pySpace x = true) then
        some ⟨none, v, r⟩
      else none

/-- The greedy `\s*` that ends capture group 1 (the run of whitespace
after `=` resp. `:`), with backtracking: the regex first lets `\s*`
consume `k` whitespace characters for the maximal possible `k` and then
retries with smaller `k` until the tail pattern matches the rest of the
line.  Returns the split that Python's `re` commits to. -/
def tryK (rest : List Char) : Nat → Option (Nat × TailMatch)
  | 0 => (matchTail rest).map (⟨0, ·⟩)
  | k + 1 =>
    match matchTail (rest.drop (k + 1)) with
    | some tm => some (k + 1, tm)
    | none => tryK rest k

def matchSuffix (rest : List Char) : Option (Nat × TailMatch) :=
  tryK rest (rest.takeWhile pySpace).length

/-! ## The vllm line pattern: `^(\s*ARG\s+VLLM_VERSION\s*=\s*)` + tail

The head of group 1 is deterministic: each `\s*`/`\s+` is followed by a
literal whose first character is not whitespace, so the maximal
whitespace run is the only possible match. -/

structure VllmMatch where
  ind : List Char      -- leading `\s*` of group 1
  ws1 : List Char      -- the `\s+` after `ARG` (nonempty)
  ws2 : List Char      -- the `\s*` before `=`
  kws : List Char      -- the `\s*` after `=` (still part of group 1)
  tm : TailMatch
  deriving DecidableEq, Repr

/-- The exact text matched by the tail pattern. -/
def tailText (tm : TailMatch) : List Char :=
  match tm.quote with
  | some c => c :: tm.value ++ c :: tm.trail
  | none => tm.value ++ tm.trail

/-- Reassemble the exact text of a matched vllm line. -/
def assembleVllm (m : VllmMatch) : List Char :=
  m.ind ++ "ARG".data ++ m.ws1 ++ "VLLM_VERSION".data ++ m.ws2 ++ '=' :: m.kws ++
    tailText m.tm

def matchVllmLine (l : List Char) : Option VllmMatch :=
  let ind := l.takeWhile pySpace
  match stripLit "ARG".data (l.dropWhile pySpace) with
  | none => none
  | some r1 =>
    let w1 := r1.takeWhile pySpace
    if w1 = [] then none
    else
      match stripLit "VLLM_VERSION".data (r1.dropWhile pySpace) with
      | none => none
      | some r3 =>
        let w2 := r3.takeWhile pySpace
        match r3.dropWhile pySpace with
        | '=' :: r5 =>
          match matchSuffix r5 with
          | some (k, tm) => some ⟨ind, w1, w2, r5.take k, tm⟩
          | none => none
        | _ => none

/-- The replacement function of `update_dockerfile_version`:
`f'{prefix}"{new_version}"{trailing}'` — group 1 and group 5 are kept,
the value is always wrapped in double quotes. -/
def vllmReplacement (m : VllmMatch) (v : List Char) : List Char :=
  m.ind ++ "ARG".data ++ m.ws1 ++ "VLLM_VERSION".data ++ m.ws2 ++ '=' :: m.kws ++
    '"' :: v ++ '"' :: m.tm.trail

def patchVllmLine (l v : List Char) : List Char :=
  match matchVllmLine l with
  | some m => vllmReplacement m v
  | none => l

/-- `re.sub(pattern, replacement, content, flags=re.MULTILINE)` of
`update_dockerfile_version`, line by line (see the header comment for
why this equals the whole-text substitution). -/
def subVllm (content v : List Char) : List Char :=
  joinLines ((splitLines content).map (patchVllmLine · v))

/-! ## The odh line pattern:
`^(\s*opendatahub\.io/runtime-version\s*:\s*)` + tail -/

def odhKey : List Char := "opendatahub.io/runtime-version".data

structure OdhMatch where
  ind : List Char      -- leading `\s*` of group 1
  ws1 : List Char      -- the `\s*` before `:`
  kws : List Char      -- the `\s*` after `:` (still part of group 1)
  tm : TailMatch
  deriving DecidableEq, Repr

def assembleOdh (m : OdhMatch) : List Char :=
  m.ind ++ odhKey ++ m.ws1 ++ ':' :: m.kws ++ tailText m.tm

def matchOdhLine (l : List Char) : Option OdhMatch :=
  let ind := l.takeWhile pySpace
  match stripLit odhKey (l.dropWhile pySpace) with
  | none => none
  | some r1 =>
    let w1 := r1.takeWhile pySpace
    match r1.dropWhile pySpace with
    | ':' :: r3 =>
      match matchSuffix r3 with
      | some (k, tm) => some ⟨ind, w1, r3.take k, tm⟩
      | none => none
    | _ => none

/-- The replacement function of `update_yaml_annotation`:
`f"{indent}{quote_start}{new_version}{quote_end}{trailing}"` — the
original quoting (group 2 = group 4) is reproduced around the new
version. -/
def odhReplacement (m : OdhMatch) (v : List Char) : List Char :=
  m.ind ++ odhKey ++ m.ws1 ++ ':' :: m.kws ++
    (match m.tm.quote with
     | some c => c :: v ++ c :: m.tm.trail
     | none => v ++ m.tm.trail)

def patchOdhLine (l v : List Char) : List Char :=
  match matchOdhLine l with
  | some m => odhReplacement m v
  | none => l

/-- `re.sub(pattern, replacement, content, flags=re.MULTILINE)` of
`update_yaml_annotation`, line by line. -/
def subOdh (content v : List Char) : List Char :=
  joinLines ((splitLines content).map (patchOdhLine · v))

/-- String-level wrappers, convenient for concrete examples. -/
def subVllmS (s v : String) : String :=
  String.mk (subVllm s.data v.data)

def subOdhS (s v : String) : String :=
  String.mk (subOdh s.data v.data)

/-! ## Soundness and completeness of the matcher -/

theorem not_quote_of_valueChar {c : Char} (h : valueChar c = true) :
    isQuoteCh c = false := by
  simp only [valueChar, Bool.not_eq_true'] at h
  simp only [isQuoteCh]
  rcases Bool.or_eq_false_iff.mp h with ⟨h1, _⟩
  rcases Bool.or_eq_false_iff.mp h1 with ⟨h2, h3⟩
  rcases Bool.or_eq_false_iff.mp h2 with ⟨h4, h5⟩
  simp [h4, h5]

theorem pySpace_false_of_quote {c : Char} (h : isQuoteCh c = true) :
    pySpace c = false := by
  rcases Bool.or_eq_true _ _ |>.mp h with h1 | h1 <;>
    rw [of_decide_eq_true h1] <;> rfl

/-- Well-formedness facts that hold for the groups of every successful
tail match, including the maximality facts the greedy matcher
guarantees (the trailing group cannot start with a value-class
character when there is no quote). -/
def tailWF (tm : TailMatch) : Prop :=
  tm.value ≠ [] ∧ (∀ c ∈ tm.value, valueChar c = true) ∧
  (∀ c ∈ tm.trail, pySpace c = true) ∧
  (match tm.quote with
   | some c => isQuoteCh c = true
   | none => tm.trail = [] ∨ ∃ h t, tm.trail = h :: t ∧ valueChar h = false)

theorem matchTail_sound {s : List Char} {tm : TailMatch}
    (h : matchTail s = some tm) : tailWF tm ∧ s = tailText tm := by
  match s with
  | [] => simp [matchTail] at h
  | c :: t =>
    simp only [matchTail] at h
    by_cases hq : isQuoteCh c = true
    · rw [if_pos hq] at h
      cases hdw : t.dropWhile valueChar with
      | nil => rw [hdw] at h; simp at h
      | cons c2 u =>
        rw [hdw] at h
        have h' : (if t.takeWhile valueChar ≠ [] ∧ c2 = c ∧ ∀ x ∈ u, pySpace x = true
            then some (⟨some c, t.takeWhile valueChar, u⟩ : TailMatch) else none) = some tm := h
        by_cases hcond : t.takeWhile valueChar ≠ [] ∧ c2 = c ∧ ∀ x ∈ u, pySpace x = true
        · rw [if_pos hcond] at h'
          obtain ⟨hv, hc2, hu⟩ := hcond
          cases h'
          refine ⟨⟨hv, fun x hx => mem_takeWhile hx, hu, hq⟩, ?_⟩
          simp only [tailText, List.cons_append]
          have := List.takeWhile_append_dropWhile (p := valueChar) (l := t)
          rw [hdw, hc2] at this
          exact congrArg (c :: ·) this.symm
        · rw [if_neg hcond] at h'; cases h'
    · rw [if_neg hq] at h
      by_cases hcond : (c :: t).takeWhile valueChar ≠ [] ∧
          ∀ x ∈ (c :: t).dropWhile valueChar, pySpace x = true
      · rw [if_pos hcond] at h
        obtain ⟨hv, hr⟩ := hcond
        cases h
        constructor
        · refine ⟨hv, fun x hx => mem_takeWhile hx, hr, ?_⟩
          cases hdw : (c :: t).dropWhile valueChar with
          | nil => exact Or.inl rfl
          | cons y ys => exact Or.inr ⟨y, ys, rfl, dropWhile_head_false hdw⟩
        · simp only [tailText]
          exact (List.takeWhile_append_dropWhile (p := valueChar) (l := c :: t)).symm
      · rw [if_neg hcond] at h; cases h

theorem matchTail_complete_quote {c : Char} {v tr : List Char}
    (hq : isQuoteCh c = true) (hv : v ≠ []) (hvc : ∀ x ∈ v, valueChar x = true)
    (htr : ∀ x ∈ tr, pySpace x = true) :
    matchTail (c :: (v ++ c :: tr)) = some ⟨some c, v, tr⟩ := by
  have hstop : c :: tr = [] ∨ ∃ y t, c :: tr = y :: t ∧ valueChar y = false :=
    Or.inr ⟨c, tr, rfl, valueChar_of_quote hq⟩
  simp only [matchTail, if_pos hq]
  rw [takeWhile_append_stop hvc hstop, dropWhile_append_stop hvc hstop]
  exact if_pos ⟨hv, rfl, htr⟩

theorem matchTail_complete_noquote {v tr : List Char}
    (hv : v ≠ []) (hvc : ∀ x ∈ v, valueChar x = true)
    (htr : ∀ x ∈ tr, pySpace x = true)
    (hstop : tr = [] ∨ ∃ h t, tr = h :: t ∧ valueChar h = false) :
    matchTail (v ++ tr) = some ⟨none, v, tr⟩ := by
  match v, hv with
  | hd :: v', _ =>
    have hhd : valueChar hd = true := hvc hd (List.mem_cons_self hd v')
    have hq : isQuoteCh hd = false := not_quote_of_valueChar hhd
    have hvc' : ∀ x ∈ hd :: v', valueChar x = true := hvc
    simp only [List.cons_append, matchTail, hq, Bool.false_eq_true, if_false]
    rw [show hd :: (v' ++ tr) = (hd :: v') ++ tr from rfl]
    rw [takeWhile_append_stop hvc' hstop, dropWhile_append_stop hvc' hstop]
    rw [if_pos ⟨by simp, htr⟩]

theorem tryK_of_matchTail {rest : List Char} {k : Nat} {tm : TailMatch}
    (h : matchTail (rest.drop k) = some tm) : tryK rest k = some (k, tm) := by
  cases k with
  | zero => simpa [tryK] using h
  | succ n => simp [tryK, h]

theorem tryK_sound {rest : List Char} :
    ∀ {k0 k : Nat} {tm : TailMatch}, tryK rest k0 = some (k, tm) →
      k ≤ k0 ∧ matchTail (rest.drop k) = some tm := by
  intro k0
  induction k0 with
  | zero =>
    intro k tm h
    simp only [tryK, Option.map_eq_some'] at h
    obtain ⟨tm', hm, heq⟩ := h
    cases heq
    exact ⟨Nat.le_refl 0, by simpa using hm⟩
  | succ n ih =>
    intro k tm h
    simp only [tryK] at h
    cases hm : matchTail (rest.drop (n + 1)) with
    | some tm' =>
      rw [hm] at h
      cases h
      exact ⟨Nat.le_refl _, hm⟩
    | none =>
      rw [hm] at h
      obtain ⟨hk, hmt⟩ := ih h
      exact ⟨Nat.le_succ_of_le hk, hmt⟩

theorem matchSuffix_complete {kws s : List Char} {tm : TailMatch}
    (hk : ∀ c ∈ kws, pySpace c = true)
    (hs : ∃ y t, s = y :: t ∧ pySpace y = false)
    (hm : matchTail s = some tm) :
    matchSuffix (kws ++ s) = some (kws.length, tm) := by
  have htw : (kws ++ s).takeWhile pySpace = kws :=
    takeWhile_append_stop hk (Or.inr hs)
  have hdrop : (kws ++ s).drop kws.length = s := List.drop_left kws s
  simp only [matchSuffix, htw]
  exact tryK_of_matchTail (by rw [hdrop]; exact hm)

theorem matchSuffix_sound {rest : List Char} {k : Nat} {tm : TailMatch}
    (h : matchSuffix rest = some (k, tm)) :
    (∀ c ∈ rest.take k, pySpace c = true) ∧
      matchTail (rest.drop k) = some tm := by
  obtain ⟨hk, hmt⟩ := tryK_sound h
  refine ⟨?_, hmt⟩
  intro c hc
  have h1 : rest.take k = (rest.takeWhile pySpace).take k := by
    conv_lhs => rw [← List.takeWhile_append_dropWhile (p := pySpace) (l := rest)]
    exact List.take_append_of_le_length hk
  rw [h1] at hc
  exact mem_takeWhile (List.take_subset k _ hc)

/-! ## Line-level soundness and completeness -/

/-- Well-formedness of the capture groups of a vllm line match. -/
def vllmWF (m : VllmMatch) : Prop :=
  (∀ c ∈ m.ind, pySpace c = true) ∧ m.ws1 ≠ [] ∧ (∀ c ∈ m.ws1, pySpace c = true) ∧
  (∀ c ∈ m.ws2, pySpace c = true) ∧ (∀ c ∈ m.kws, pySpace c = true) ∧ tailWF m.tm

/-- Well-formedness of the capture groups of an odh line match. -/
def odhWF (m : OdhMatch) : Prop :=
  (∀ c ∈ m.ind, pySpace c = true) ∧ (∀ c ∈ m.ws1, pySpace c = true) ∧
  (∀ c ∈ m.kws, pySpace c = true) ∧ tailWF m.tm

/-- For an unquoted value, re-parsing is deterministic only when the
value does not begin with whitespace (otherwise the greedy `\s*` of
group 1 would absorb it). -/
def noWsValueHead (tm : TailMatch) : Prop :=
  match tm.quote with
  | some _ => True
  | none => ∃ h t, tm.value = h :: t ∧ pySpace h = false

theorem ws_step {ws : List Char} (hws : ∀ c ∈ ws, pySpace c = true)
    {c : Char} (hc : pySpace c = false) (rest : List Char) :
    ((ws ++ (c :: rest)).takeWhile pySpace = ws) ∧
    ((ws ++ (c :: rest)).dropWhile pySpace = c :: rest) :=
  ⟨takeWhile_append_stop hws (Or.inr ⟨c, rest, rfl, hc⟩),
   dropWhile_append_stop hws (Or.inr ⟨c, rest, rfl, hc⟩)⟩

theorem tailText_head {tm : TailMatch} (htwf : tailWF tm) (hnv : noWsValueHead tm) :
    ∃ y t, tailText tm = y :: t ∧ pySpace y = false := by
  obtain ⟨hvne, hvc, htr, hq⟩ := htwf
  cases hquote : tm.quote with
  | some c =>
    refine ⟨c, tm.value ++ c :: tm.trail, ?_, ?_⟩
    · simp [tailText, hquote]
    · rw [hquote] at hq
      exact pySpace_false_of_quote hq
  | none =>
    rw [noWsValueHead, hquote] at hnv
    obtain ⟨y, t, hval, hy⟩ := hnv
    exact ⟨y, t ++ tm.trail, by simp [tailText, hquote, hval], hy⟩

theorem matchTail_tailText {tm : TailMatch} (htwf : tailWF tm) :
    matchTail (tailText tm) = some tm := by
  obtain ⟨hvne, hvc, htr, hq⟩ := htwf
  cases hquote : tm.quote with
  | some c =>
    rw [hquote] at hq
    have e : tailText tm = c :: (tm.value ++ c :: tm.trail) := by
      simp only [tailText, hquote, List.cons_append]
    rw [e, matchTail_complete_quote hq hvne hvc htr]
    obtain ⟨q, v, tr⟩ := tm
    simp only at hquote
    rw [hquote]
  | none =>
    rw [hquote] at hq
    have e : tailText tm = tm.value ++ tm.trail := by
      simp only [tailText, hquote]
    rw [e, matchTail_complete_noquote hvne hvc htr hq]
    obtain ⟨q, v, tr⟩ := tm
    simp only at hquote
    rw [hquote]

theorem matchVllmLine_complete {m : VllmMatch} (hwf : vllmWF m)
    (hnv : noWsValueHead m.tm) :
    matchVllmLine (assembleVllm m) = some m := by
  obtain ⟨hind, hw1ne, hw1, hw2, hkws, htwf⟩ := hwf
  obtain ⟨y, yt, hyt, hy⟩ := tailText_head htwf hnv
  have hl : assembleVllm m =
      m.ind ++ ('A' :: ("RG".data ++ (m.ws1 ++ ('V' :: ("LLM_VERSION".data ++
        (m.ws2 ++ ('=' :: (m.kws ++ tailText m.tm)))))))) := by
    simp [assembleVllm, List.append_assoc]
  have hstep1 := ws_step hind (show pySpace 'A' = false from rfl)
      ("RG".data ++ (m.ws1 ++ ('V' :: ("LLM_VERSION".data ++
        (m.ws2 ++ ('=' :: (m.kws ++ tailText m.tm)))))))
  have hstrip1 : stripLit "ARG".data ((assembleVllm m).dropWhile pySpace) =
      some (m.ws1 ++ ('V' :: ("LLM_VERSION".data ++
        (m.ws2 ++ ('=' :: (m.kws ++ tailText m.tm)))))) := by
    rw [hl, hstep1.2]
    exact stripLit_append "ARG".data _
  have hstep2 := ws_step hw1 (show pySpace 'V' = false from rfl)
      ("LLM_VERSION".data ++ (m.ws2 ++ ('=' :: (m.kws ++ tailText m.tm))))
  have hstrip2 : stripLit "VLLM_VERSION".data
      ((m.ws1 ++ ('V' :: ("LLM_VERSION".data ++
        (m.ws2 ++ ('=' :: (m.kws ++ tailText m.tm)))))).dropWhile pySpace) =
      some (m.ws2 ++ ('=' :: (m.kws ++ tailText m.tm))) := by
    rw [hstep2.2]
    exact stripLit_append "VLLM_VERSION".data _
  have hstep3 := ws_step hw2 (show pySpace '=' = false from rfl)
      (m.kws ++ tailText m.tm)
  have hsuf : matchSuffix (m.kws ++ tailText m.tm) = some (m.kws.length, m.tm) :=
    matchSuffix_complete hkws ⟨y, yt, hyt, hy⟩ (matchTail_tailText htwf)
  simp only [matchVllmLine]
  rw [hstrip1]
  simp only [hstep2.1, hw1ne, hstrip2, hstep3.1, hstep3.2, hsuf]
  simp only [List.take_left]
  rw [hl, hstep1.1]
  simp

theorem matchOdhLine_complete {m : OdhMatch} (hwf : odhWF m)
    (hnv : noWsValueHead m.tm) :
    matchOdhLine (assembleOdh m) = some m := by
  obtain ⟨hind, hw1, hkws, htwf⟩ := hwf
  obtain ⟨y, yt, hyt, hy⟩ := tailText_head htwf hnv
  have hl : assembleOdh m =
      m.ind ++ ('o' :: ("pendatahub.io/runtime-version".data ++ (m.ws1 ++
        (':' :: (m.kws ++ tailText m.tm))))) := by
    simp [assembleOdh, odhKey, List.append_assoc]
  have hstep1 := ws_step hind (show pySpace 'o' = false from rfl)
      ("pendatahub.io/runtime-version".data ++ (m.ws1 ++
        (':' :: (m.kws ++ tailText m.tm))))
  have hstrip1 : stripLit odhKey ((assembleOdh m).dropWhile pySpace) =
      some (m.ws1 ++ (':' :: (m.kws ++ tailText m.tm))) := by
    rw [hl, hstep1.2]
    exact stripLit_append odhKey _
  have hstep2 := ws_step hw1 (show pySpace ':' = false from rfl)
      (m.kws ++ tailText m.tm)
  have hsuf : matchSuffix (m.kws ++ tailText m.tm) = some (m.kws.length, m.tm) :=
    matchSuffix_complete hkws ⟨y, yt, hyt, hy⟩ (matchTail_tailText htwf)
  simp only [matchOdhLine]
  rw [hstrip1]
  simp only [hstep2.1, hstep2.2, hsuf]
  simp only [List.take_left]
  rw [hl, hstep1.1]

theorem matchVllmLine_sound {l : List Char} {m : VllmMatch}
    (h : matchVllmLine l = some m) : vllmWF m ∧ l = assembleVllm m := by
  simp only [matchVllmLine] at h
  split at h
  · cases h
  · rename_i r1 hA
    split at h
    · cases h
    · rename_i hw1
      split at h
      · cases h
      · rename_i r3 hB
        split at h
        · rename_i r5 hC
          split at h
          · rename_i ktm k tm hD
            cases h
            obtain ⟨hkws, hmt⟩ := matchSuffix_sound hD
            obtain ⟨htwf, htt⟩ := matchTail_sound hmt
            constructor
            · exact ⟨fun c hc => mem_takeWhile hc, hw1,
                fun c hc => mem_takeWhile hc, fun c hc => mem_takeWhile hc, hkws, htwf⟩
            · conv_lhs =>
                rw [← List.takeWhile_append_dropWhile pySpace l]
                rw [stripLit_sound hA]
                rw [← List.takeWhile_append_dropWhile pySpace r1]
                rw [stripLit_sound hB]
                rw [← List.takeWhile_append_dropWhile pySpace r3]
                rw [hC]
                rw [← List.take_append_drop k r5]
                rw [htt]
              have hARGd : "ARG".data = ['A', 'R', 'G'] := rfl
              have hVLLMd : "VLLM_VERSION".data =
                ['V', 'L', 'L', 'M', '_', 'V', 'E', 'R', 'S', 'I', 'O', 'N'] := rfl
              simp [assembleVllm, hARGd, hVLLMd, List.append_assoc]
          · cases h
        · cases h

theorem matchOdhLine_sound {l : List Char} {m : OdhMatch}
    (h : matchOdhLine l = some m) : odhWF m ∧ l = assembleOdh m := by
  simp only [matchOdhLine] at h
  split at h
  · cases h
  · rename_i r1 hA
    split at h
    · rename_i r3 hC
      split at h
      · rename_i ktm k tm hD
        cases h
        obtain ⟨hkws, hmt⟩ := matchSuffix_sound hD
        obtain ⟨htwf, htt⟩ := matchTail_sound hmt
        constructor
        · exact ⟨fun c hc => mem_takeWhile hc, fun c hc => mem_takeWhile hc, hkws, htwf⟩
        · conv_lhs =>
            rw [← List.takeWhile_append_dropWhile pySpace l]
            rw [stripLit_sound hA]
            rw [← List.takeWhile_append_dropWhile pySpace r1]
            rw [hC]
            rw [← List.take_append_drop k r3]
            rw [htt]
          simp [assembleOdh, odhKey, List.append_assoc]
      · cases h
    · cases h

/-! ## Idempotence of the line patchers -/

/-- Version strings for which both patchers are idempotent: nonempty,
no quote characters, no CR/LF (together: every character is in the
value class), and not beginning with whitespace. -/
def goodVersion (v : List Char) : Prop :=
  v ≠ [] ∧ (∀ c ∈ v, valueChar c = true) ∧ pySpace (v.headD ' ') = false

instance (v : List Char) : Decidable (goodVersion v) := by
  unfold goodVersion
  infer_instance

theorem goodVersion_head {v : List Char} (hv : goodVersion v) :
    ∃ h t, v = h :: t ∧ pySpace h = false := by
  obtain ⟨hne, _, hh⟩ := hv
  cases v with
  | nil => exact absurd rfl hne
  | cons h t => exact ⟨h, t, rfl, by simpa using hh⟩

theorem patchVllmLine_matched {l v : List Char} {m : VllmMatch}
    (h : matchVllmLine l = some m) (hv : goodVersion v) :
    matchVllmLine (patchVllmLine l v) =
      some ⟨m.ind, m.ws1, m.ws2, m.kws, ⟨some '"', v, m.tm.trail⟩⟩ := by
  obtain ⟨hvne, hvc, _⟩ := hv
  obtain ⟨⟨hind, hw1ne, hw1, hw2, hkws, htwf⟩, _⟩ := matchVllmLine_sound h
  obtain ⟨_, _, htr, _⟩ := htwf
  have hrepl : patchVllmLine l v =
      assembleVllm ⟨m.ind, m.ws1, m.ws2, m.kws, ⟨some '"', v, m.tm.trail⟩⟩ := by
    simp [patchVllmLine, h, vllmReplacement, assembleVllm, tailText]
  rw [hrepl]
  exact matchVllmLine_complete
    ⟨hind, hw1ne, hw1, hw2, hkws, hvne, hvc, htr, rfl⟩ trivial

theorem patchVllmLine_idem {l v : List Char} (hv : goodVersion v) :
    patchVllmLine (patchVllmLine l v) v = patchVllmLine l v := by
  cases h : matchVllmLine l with
  | none =>
    have : patchVllmLine l v = l := by simp [patchVllmLine, h]
    rw [this, patchVllmLine, h]
  | some m =>
    rw [patchVllmLine, patchVllmLine_matched h hv]
    simp [patchVllmLine, h, vllmReplacement]

theorem patchOdhLine_matched {l v : List Char} {m : OdhMatch}
    (h : matchOdhLine l = some m) (hv : goodVersion v) :
    matchOdhLine (patchOdhLine l v) =
      some ⟨m.ind, m.ws1, m.kws, ⟨m.tm.quote, v, m.tm.trail⟩⟩ := by
  have hvh := goodVersion_head hv
  obtain ⟨hvne, hvc, _⟩ := hv
  obtain ⟨⟨hind, hw1, hkws, htwf⟩, _⟩ := matchOdhLine_sound h
  obtain ⟨_, _, htr, hq⟩ := htwf
  have hrepl : patchOdhLine l v =
      assembleOdh ⟨m.ind, m.ws1, m.kws, ⟨m.tm.quote, v, m.tm.trail⟩⟩ := by
    cases hquote : m.tm.quote with
    | some c => simp [patchOdhLine, h, odhReplacement, assembleOdh, tailText, hquote]
    | none => simp [patchOdhLine, h, odhReplacement, assembleOdh, tailText, hquote]
  rw [hrepl]
  refine matchOdhLine_complete ⟨hind, hw1, hkws, hvne, hvc, htr, ?_⟩ ?_
  · cases hquote : m.tm.quote with
    | some c => rw [hquote] at hq; simpa using hq
    | none => rw [hquote] at hq; simpa using hq
  · cases hquote : m.tm.quote with
    | some c => simp [noWsValueHead, hquote]
    | none => simp only [noWsValueHead, hquote]; exact hvh

theorem patchOdhLine_idem {l v : List Char} (hv : goodVersion v) :
    patchOdhLine (patchOdhLine l v) v = patchOdhLine l v := by
  cases h : matchOdhLine l with
  | none =>
    have : patchOdhLine l v = l := by simp [patchOdhLine, h]
    rw [this, patchOdhLine, h]
  | some m =>
    rw [patchOdhLine, patchOdhLine_matched h hv]
    cases hquote : m.tm.quote with
    | some c => simp [patchOdhLine, h, odhReplacement, hquote]
    | none => simp [patchOdhLine, h, odhReplacement, hquote]

/-! ## The patched line contains no newline (needed to re-split) -/

theorem newline_not_valueChar : valueChar '\n' = false := rfl

theorem patchVllmLine_no_newline {l v : List Char} (hl : '\n' ∉ l)
    (hv : ∀ c ∈ v, valueChar c = true) : '\n' ∉ patchVllmLine l v := by
  cases h : matchVllmLine l with
  | none => simpa [patchVllmLine, h] using hl
  | some m =>
    obtain ⟨_, hasm⟩ := matchVllmLine_sound h
    intro hmem
    rw [hasm] at hl
    have hv' : '\n' ∉ v := fun hm => by
      have h2 := hv '\n' hm
      simp [valueChar] at h2
    cases hquote : m.tm.quote with
    | some c =>
      simp only [patchVllmLine, h] at hmem
      simp [vllmReplacement, hv'] at hmem
      simp [assembleVllm, tailText, hquote] at hl
      tauto
    | none =>
      simp only [patchVllmLine, h] at hmem
      simp [vllmReplacement, hv'] at hmem
      simp [assembleVllm, tailText, hquote] at hl
      tauto

theorem patchOdhLine_no_newline {l v : List Char} (hl : '\n' ∉ l)
    (hv : ∀ c ∈ v, valueChar c = true) : '\n' ∉ patchOdhLine l v := by
  cases h : matchOdhLine l with
  | none => simpa [patchOdhLine, h] using hl
  | some m =>
    obtain ⟨_, hasm⟩ := matchOdhLine_sound h
    intro hmem
    rw [hasm] at hl
    have hv' : '\n' ∉ v := fun hm => by
      have h2 := hv '\n' hm
      simp [valueChar] at h2
    cases hquote : m.tm.quote with
    | some c =>
      simp only [patchOdhLine, h] at hmem
      simp [odhReplacement, hquote, hv'] at hmem
      simp [assembleOdh, tailText, hquote] at hl
      tauto
    | none =>
      simp only [patchOdhLine, h] at hmem
      simp [odhReplacement, hquote, hv'] at hmem
      simp [assembleOdh, tailText, hquote] at hl
      tauto

/-! ## Idempotence of the whole-file substitutions -/

theorem subVllm_idem {c v : List Char} (hv : goodVersion v) :
    subVllm (subVllm c v) v = subVllm c v := by
  obtain ⟨hvne, hvc, hvh⟩ := hv
  unfold subVllm
  have hnl : ∀ l ∈ (splitLines c).map (patchVllmLine · v), '\n' ∉ l := by
    intro l hl
    obtain ⟨l0, hl0, rfl⟩ := List.mem_map.mp hl
    exact patchVllmLine_no_newline (no_newline_mem_splitLines hl0) hvc
  have hne : (splitLines c).map (patchVllmLine · v) ≠ [] := by
    intro h0
    exact splitLines_ne_nil c (List.map_eq_nil_iff.mp h0)
  rw [splitLines_joinLines hne hnl, List.map_map]
  apply congrArg
  apply List.map_congr_left
  intro a _
  simp only [Function.comp_apply]
  exact patchVllmLine_idem ⟨hvne, hvc, hvh⟩

theorem subOdh_idem {c v : List Char} (hv : goodVersion v) :
    subOdh (subOdh c v) v = subOdh c v := by
  obtain ⟨hvne, hvc, hvh⟩ := hv
  unfold subOdh
  have hnl : ∀ l ∈ (splitLines c).map (patchOdhLine · v), '\n' ∉ l := by
    intro l hl
    obtain ⟨l0, hl0, rfl⟩ := List.mem_map.mp hl
    exact patchOdhLine_no_newline (no_newline_mem_splitLines hl0) hvc
  have hne : (splitLines c).map (patchOdhLine · v) ≠ [] := by
    intro h0
    exact splitLines_ne_nil c (List.map_eq_nil_iff.mp h0)
  rw [splitLines_joinLines hne hnl, List.map_map]
  apply congrArg
  apply List.map_congr_left
  intro a _
  simp only [Function.comp_apply]
  exact patchOdhLine_idem ⟨hvne, hvc, hvh⟩

/-! ## Filesystem, effects and environment

A cloned working copy is an association list from (repository-relative)
file path to content; the Python scripts only ever write paths they
have just read, so `fsSet` updating existing entries is exact.  Every
externally visible side effect is recorded in an effect trace.  The
summary files (`*_update_summary.md`, `pr_count.txt`, `pr_url.txt`) are
modeled by the returned summary/result values rather than as effects. -/

abbrev Content := List Char
abbrev FS := List (String × Content)

def fsGet : FS → String → Option Content
  | [], _ => none
  | (q, c) :: t, p => if q = p then some c else fsGet t p

def fsSet : FS → String → Content → FS
  | [], _, _ => []
  | (q, c) :: t, p, nc => if q = p then (q, nc) :: fsSet t p nc else (q, c) :: fsSet t p nc

inductive Effect where
  | fsWrite (path : String) (content : Content)
  | gitClone (repo : String)
  | gitCheckout (branch : String)
  | gitNewBranch (branch : String)
  | gitAdd
  | gitCommit (msg : String)
  | gitSetRemote (url : String)
  | gitPush (branch : String)
  | prApiPost (repo title : String)
  | mkdtemp
  | rmtree
  deriving DecidableEq, Repr

/-- The run environment and the oracles for the three external systems
(configuration file, git, hosting API). -/
structure Env where
  githubToken : String
      -- GITHUB_TOKEN; "" models both unset and empty (`not self.github_token`)
  targetBranch : String          -- TARGET_BRANCH (default "main")
  runtimeFilter : String         -- RUNTIME_FILTER (default "all")
  dryRun : Bool                  -- DRY_RUN
  configDoc : Option (List (String × Content))
      -- the rhoai-runtime-versions record list; none = load_runtime_versions raises
  cloneFS : String → Except String FS
      -- clone_repository outcome per repository (ok: working-copy files)
  gitResult : String → Option String
      -- none: the git commands of create_pr succeed; some e: CalledProcessError e
  apiStatus : String → Nat       -- HTTP status of the PR-creation POST
  apiUrl : String → String       -- html_url of the API response

/-- Python dict construction `{item['runtime']: item['version'] for item in ...}`:
a duplicate key overwrites the stored value in place (last one wins,
first position kept). -/
def dictInsert (d : List (String × Content)) (k : String) (v : Content) :
    List (String × Content) :=
  if d.any (fun e => e.1 == k) then d.map (fun e => if e.1 = k then (k, v) else e)
  else d ++ [(k, v)]

def dictOfList (l : List (String × Content)) : List (String × Content) :=
  l.foldl (fun d e => dictInsert d e.1 e.2) []

def lookupA {α : Type} : List (String × α) → String → Option α
  | [], _ => none
  | (k, v) :: t, q => if k = q then some v else lookupA t q

/-! ## update_vllm_repositories.py -/

/-- `REPO_MAPPINGS` of update_vllm_repositories.py. -/
def REPO_MAPPINGS : List (String × String × List String) :=
  [("vllm", "red-hat-data-services/vllm", ["Dockerfile.ubi"]),
   ("vllm-rocm", "red-hat-data-services/vllm-rocm", ["Dockerfile.rom.ubi"]),
   ("vllm-cpu", "red-hat-data-services/vllm-cpu",
     ["Dockerfile.ppc64le.ubi", "Dockerfile.s390x.ubi"]),
   ("vllm-gaudi", "red-hat-data-services/vllm-gaudi", ["Dockerfile.hpu.ubi"])]

/-- `update_dockerfile_version`: skip a missing file; compute the
substitution; no write when nothing changed; in dry-run report the
would-be change without writing; otherwise write the patched text. -/
def update_dockerfile_version (dryRun : Bool) (fs : FS) (path : String) (v : Content) :
    Bool × FS × List Effect :=
  match fsGet fs path with
  | none => (false, fs, [])
  | some content =>
    if content = subVllm content v then (false, fs, [])
    else if dryRun then (true, fs, [])
    else (true, fsSet fs path (subVllm content v),
      [Effect.fsWrite path (subVllm content v)])

/-- `create_pr` of update_vllm_repositories.py.  A git failure
(CalledProcessError escaping `run_command`) is modeled at the first
mutating git command. -/
def create_pr_vllm (env : Env) (repo runtime : String) (version : Content)
    (filesUpdated : List String) (hasChanges : Bool) :
    Except String (Option String) × List Effect :=
  if env.dryRun then (Except.ok (some "dry-run-pr-url"), [])
  else
    let branch := "update-vllm-version-" ++
      String.mk (version.map fun c => if c = '.' then '-' else c)
    if ¬hasChanges then (Except.ok none, [])
    else
      match env.gitResult repo with
      | some e => (Except.error e, [Effect.gitNewBranch branch])
      | none =>
        let msg := "Update VLLM_VERSION to " ++ String.mk version ++ " for " ++ runtime ++
          "\n\nFiles updated:\n" ++
          String.intercalate "\n" (filesUpdated.map (fun f => "- " ++ f))
        let url := "https://x-access-token:" ++ env.githubToken ++ "@github.com/" ++
          repo ++ ".git"
        let title := "Update VLLM_VERSION to " ++ String.mk version ++ " for " ++ runtime
        let effs := [Effect.gitNewBranch branch, Effect.gitAdd, Effect.gitCommit msg,
          Effect.gitSetRemote url, Effect.gitPush branch, Effect.prApiPost repo title]
        if env.apiStatus repo = 201 then (Except.ok (some (env.apiUrl repo)), effs)
        else (Except.ok none, effs)

/-- One step of the per-repository patch loop of `process_runtime`
(files updated so far, current working copy, effects). -/
def patchStepVllm (dryRun : Bool) (v : Content)
    (acc : List String × FS × List Effect) (f : String) :
    List String × FS × List Effect :=
  let r := update_dockerfile_version dryRun acc.2.1 f v
  (if r.1 then acc.1 ++ [f] else acc.1, r.2.1, acc.2.2 ++ r.2.2)

/-- The per-repository patch loop of `process_runtime`. -/
def patchPassVllm (dryRun : Bool) (fs : FS) (files : List String) (v : Content) :
    List String × FS × List Effect :=
  files.foldl (patchStepVllm dryRun v) ([], fs, [])

/-- `process_runtime`: returns the summary line, the pr-count increment
and the effect trace.  `git status --porcelain` reports a dirty tree
exactly when the patch pass wrote files, i.e. when it updated at least
one file outside dry-run. -/
def process_runtime (env : Env) (runtime : String) (version : Content) :
    String × Nat × List Effect :=
  match lookupA REPO_MAPPINGS runtime with
  | none => ("❌ " ++ runtime ++ ": No repository mapping found", 0, [])
  | some rf =>
    match env.cloneFS rf.1 with
    | Except.error e =>
      ("❌ " ++ runtime ++ ": Failed to clone " ++ rf.1 ++ ": " ++ e, 0,
        [Effect.gitClone rf.1])
    | Except.ok fs =>
      let cloneEffs := [Effect.gitClone rf.1, Effect.gitCheckout env.targetBranch]
      let pass := patchPassVllm env.dryRun fs rf.2 version
      if pass.1 = [] then
        ("⚠️ " ++ runtime ++ ": No changes needed", 0, cloneEffs ++ pass.2.2)
      else
        let pr := create_pr_vllm env rf.1 runtime version pass.1 (!env.dryRun)
        match pr.1 with
        | Except.error e =>
          ("❌ " ++ runtime ++ ": Failed to create PR: " ++ e, 0,
            cloneEffs ++ pass.2.2 ++ pr.2)
        | Except.ok none =>
          ("❌ " ++ runtime ++ ": Failed to create PR", 0, cloneEffs ++ pass.2.2 ++ pr.2)
        | Except.ok (some url) =>
          if env.dryRun then
            ("🔍 " ++ runtime ++ ": Would create PR (dry run)", 0,
              cloneEffs ++ pass.2.2 ++ pr.2)
          else
            ("✅ " ++ runtime ++ ": [PR created](" ++ url ++ ")", 1,
              cloneEffs ++ pass.2.2 ++ pr.2)

/-- The intersection of the loaded configuration with `REPO_MAPPINGS`
(`vllm_runtime_versions` in `run`). -/
def vllmEligible (cfg : List (String × Content)) : List (String × Content) :=
  (dictOfList cfg).filter (fun e => (lookupA REPO_MAPPINGS e.1).isSome)

/-- The mkdtemp / per-runtime loop / rmtree part of `run`.  Within the
embedded semantics `process_runtime` is total — each of its Python
exception points (clone, git commands, API call) is part of its result —
and the `finally` block appends the recursive removal of the work
directory after the loop, whatever the loop produced. -/
def runSelectedVllm (env : Env) (sel : List (String × Content)) :
    Nat × List String × List Effect :=
  let rs := sel.map (fun e => process_runtime env e.1 e.2)
  (0, rs.map (·.1), Effect.mkdtemp :: (rs.map (fun r => r.2.2)).flatten ++ [Effect.rmtree])

/-- `run` of update_vllm_repositories.py: exit code, summary lines,
effect trace. -/
def run_vllm (env : Env) : Nat × List String × List Effect :=
  match env.configDoc with
  | none => (1, [], [])
  | some cfg =>
    let vv := vllmEligible cfg
    if vv = [] then (0, ["⚠️ No VLLM runtime versions found"], [])
    else if env.runtimeFilter ≠ "" ∧ env.runtimeFilter ≠ "all" then
      match lookupA vv env.runtimeFilter with
      | some ver => runSelectedVllm env [(env.runtimeFilter, ver)]
      | none => (1, [], [])
    else runSelectedVllm env vv

/-- `__init__` + `run`: the constructor raises ValueError (uncaught,
nonzero process exit) when GITHUB_TOKEN is unset or empty. -/
def main_vllm (env : Env) : Nat × List String × List Effect :=
  if env.githubToken = "" then (1, [], [])
  else run_vllm env

/-! ## update_odh_runtime_versions.py -/

def ODH_MODEL_CONTROLLER_MAPPINGS : List (String × String × List String) :=
  [("vllm", "red-hat-data-services/odh-model-controller",
     ["config/runtimes/vllm-cuda-template.yaml",
      "config/runtimes/vllm-multinode-template.yaml"]),
   ("vllm-rocm", "red-hat-data-services/odh-model-controller",
     ["config/runtimes/vllm-rocm-template.yaml"]),
   ("vllm-cpu", "red-hat-data-services/odh-model-controller",
     ["config/runtimes/vllm-cpu-template.yaml"]),
   ("vllm-gaudi", "red-hat-data-services/odh-model-controller",
     ["config/runtimes/vllm-gaudi-template.yaml"]),
   ("ovms", "red-hat-data-services/odh-model-controller",
     ["config/runtimes/ovms-kserve-template.yaml",
      "config/runtimes/ovms-mm-template.yaml"])]

/-- `update_yaml_annotation`: same shape as the Dockerfile variant, with
the annotation pattern and the quote-preserving replacement. -/
def update_yaml_annotation (dryRun : Bool) (fs : FS) (path : String) (v : Content) :
    Bool × FS × List Effect :=
  match fsGet fs path with
  | none => (false, fs, [])
  | some content =>
    if content = subOdh content v then (false, fs, [])
    else if dryRun then (true, fs, [])
    else (true, fsSet fs path (subOdh content v),
      [Effect.fsWrite path (subOdh content v)])

/-- Branch-name derivation of the odh `create_pr`:
`'-'.join(runtime_updates[0].split(' -> ')[1].replace('.', '-').split('-')[:2])`.
The Python list indexing would raise on an empty or malformed list;
`create_pr` is only reached with a nonempty well-formed one, and the
model totalizes the out-of-range case with "". -/
def odhBranchName (runtimeUpdates : List String) : String :=
  let verPart := ((runtimeUpdates.headD "").splitOn " -> ").getD 1 ""
  "update-runtime-versions-" ++
    String.intercalate "-" (((verPart.replace "." "-").splitOn "-").take 2)

def create_pr_odh (env : Env) (repo : String) (runtimeUpdates filesUpdated : List String)
    (hasChanges : Bool) : Except String (Option String) × List Effect :=
  if env.dryRun then (Except.ok (some "dry-run-pr-url"), [])
  else
    let branch := odhBranchName runtimeUpdates
    if ¬hasChanges then (Except.ok none, [])
    else
      match env.gitResult repo with
      | some e => (Except.error e, [Effect.gitNewBranch branch])
      | none =>
        let msg := "Update runtime versions in ODH Model Controller\n\nRuntime updates:\n" ++
          String.intercalate "\n" (runtimeUpdates.map (fun u => "- " ++ u)) ++
          "\n\nFiles updated:\n" ++
          String.intercalate "\n" (filesUpdated.map (fun f => "- " ++ f))
        let url := "https://x-access-token:" ++ env.githubToken ++ "@github.com/" ++
          repo ++ ".git"
        let title := "Update runtime versions in ODH Model Controller"
        let effs := [Effect.gitNewBranch branch, Effect.gitAdd, Effect.gitCommit msg,
          Effect.gitSetRemote url, Effect.gitPush branch, Effect.prApiPost repo title]
        if env.apiStatus repo = 201 then (Except.ok (some (env.apiUrl repo)), effs)
        else (Except.ok none, effs)

def patchStepOdh (dryRun : Bool) (v : Content)
    (acc : List String × FS × List Effect) (f : String) :
    List String × FS × List Effect :=
  let r := update_yaml_annotation dryRun acc.2.1 f v
  (if r.1 then acc.1 ++ [f] else acc.1, r.2.1, acc.2.2 ++ r.2.2)

def patchPassOdh (dryRun : Bool) (fs : FS) (files : List String) (v : Content) :
    List String × FS × List Effect :=
  files.foldl (patchStepOdh dryRun v) ([], fs, [])

/-- Accumulator of the per-runtime loop of `process_odh_updates`. -/
structure OdhAcc where
  allFiles : List String
  runtimeUpdates : List String
  fs : FS
  effs : List Effect
  deriving Repr

def odhStep (env : Env) (a : OdhAcc) (e : String × Content) : OdhAcc :=
  let files := match lookupA ODH_MODEL_CONTROLLER_MAPPINGS e.1 with
    | some rf => rf.2
    | none => []     -- unreachable: the loop runs over mapping members only
  let pass := patchPassOdh env.dryRun a.fs files e.2
  { allFiles := a.allFiles ++ pass.1,
    runtimeUpdates :=
      if pass.1 = [] then a.runtimeUpdates
      else a.runtimeUpdates ++ [e.1 ++ " -> " ++ String.mk e.2],
    fs := pass.2.1,
    effs := a.effs ++ pass.2.2 }

/-- The runtimes an odh run actually touches: the loaded mapping
restricted to `ODH_MODEL_CONTROLLER_MAPPINGS` members. -/
def odhSelected (runtimeVersions : List (String × Content)) :
    List (String × Content) :=
  runtimeVersions.filter (fun e => (lookupA ODH_MODEL_CONTROLLER_MAPPINGS e.1).isSome)

/-- The whole per-runtime patch loop of `process_odh_updates`. -/
def odhPatchLoop (env : Env) (runtimeVersions : List (String × Content)) (fs0 : FS) :
    OdhAcc :=
  (odhSelected runtimeVersions).foldl (odhStep env) ⟨[], [], fs0, []⟩

/-- `process_odh_updates`: (pr_url, message, effects); pr_url is
`some "dry-run"` for the dry-run sentinel, `none` for every failure or
no-op outcome. -/
def process_odh_updates (env : Env) (runtimeVersions : List (String × Content)) :
    Option String × String × List Effect :=
  if odhSelected runtimeVersions = [] then
    (none, "No ODH Model Controller updates needed", [])
  else
    let repo := "red-hat-data-services/odh-model-controller"
    match env.cloneFS repo with
    | Except.error e =>
      (none, "Failed to clone " ++ repo ++ ": " ++ e, [Effect.gitClone repo])
    | Except.ok fs0 =>
      let cloneEffs := [Effect.gitClone repo, Effect.gitCheckout env.targetBranch]
      let acc := odhPatchLoop env runtimeVersions fs0
      if acc.allFiles = [] then
        (none, "No changes needed in " ++ repo, cloneEffs ++ acc.effs)
      else
        let pr := create_pr_odh env repo acc.runtimeUpdates acc.allFiles (!env.dryRun)
        match pr.1 with
        | Except.error e =>
          (none, "Failed to create PR in " ++ repo ++ ": " ++ e,
            cloneEffs ++ acc.effs ++ pr.2)
        | Except.ok none =>
          (none, "Failed to create PR in " ++ repo, cloneEffs ++ acc.effs ++ pr.2)
        | Except.ok (some url) =>
          if env.dryRun then
            (some "dry-run", "Would create PR in " ++ repo ++ " (dry run)",
              cloneEffs ++ acc.effs ++ pr.2)
          else (some url, "PR created in " ++ repo, cloneEffs ++ acc.effs ++ pr.2)

def runSelectedOdh (env : Env) (sel : List (String × Content)) :
    Nat × Option (Option String × String) × List Effect :=
  let r := process_odh_updates env sel
  (0, some (r.1, r.2.1), Effect.mkdtemp :: r.2.2 ++ [Effect.rmtree])

/-- `run` of update_odh_runtime_versions.py.  Note: the runtime filter
is checked against the full loaded configuration mapping, not against
the ODH mapping table. -/
def run_odh (env : Env) : Nat × Option (Option String × String) × List Effect :=
  match env.configDoc with
  | none => (1, none, [])
  | some cfg =>
    let versions := dictOfList cfg
    if env.runtimeFilter ≠ "" ∧ env.runtimeFilter ≠ "all" then
      match lookupA versions env.runtimeFilter with
      | some ver => runSelectedOdh env [(env.runtimeFilter, ver)]
      | none => (1, none, [])
    else runSelectedOdh env versions

def main_odh (env : Env) : Nat × Option (Option String × String) × List Effect :=
  if env.githubToken = "" then (1, none, [])
  else run_odh env

/-! ## Effect classification and basic facts about the loops -/

/-- Effects of the publishing stage (branch, commit, push, PR-API call). -/
def isPublishEffect : Effect → Bool
  | Effect.gitNewBranch _ => true
  | Effect.gitAdd => true
  | Effect.gitCommit _ => true
  | Effect.gitSetRemote _ => true
  | Effect.gitPush _ => true
  | Effect.prApiPost _ _ => true
  | _ => false

/-- Mutating effects: a working-copy write or a publishing effect
(cloning and the temp-directory bookkeeping are not mutations of any
shared state). -/
def isMutatingEffect : Effect → Bool
  | Effect.fsWrite _ _ => true
  | e => isPublishEffect e

theorem update_dockerfile_effects (d : Bool) (fs : FS) (p : String) (v : Content) :
    ∀ e ∈ (update_dockerfile_version d fs p v).2.2, ∃ q c, e = Effect.fsWrite q c := by
  intro e he
  unfold update_dockerfile_version at he
  split at he
  · exact absurd he (List.not_mem_nil e)
  · split at he
    · exact absurd he (List.not_mem_nil e)
    · split at he
      · exact absurd he (List.not_mem_nil e)
      · exact ⟨_, _, by simpa using he⟩

theorem update_yaml_effects (d : Bool) (fs : FS) (p : String) (v : Content) :
    ∀ e ∈ ( update_yaml_annotation d fs p v).2.2, ∃ q c, e = Effect.fsWrite q c := by
  intro e he
  unfold update_yaml_annotation at he
  split at he
  · exact absurd he (List.not_mem_nil e)
  · split at he
    · exact absurd he (List.not_mem_nil e)
    · split at he
      · exact absurd he (List.not_mem_nil e)
      · exact ⟨_, _, by simpa using he⟩

theorem update_dockerfile_dry (fs : FS) (p : String) (v : Content) :
    (update_dockerfile_version true fs p v).2.1 = fs ∧
    (update_dockerfile_version true fs p v).2.2 = [] := by
  unfold update_dockerfile_version
  split
  · exact ⟨rfl, rfl⟩
  · split
    · exact ⟨rfl, rfl⟩
    · exact ⟨rfl, rfl⟩

theorem update_yaml_dry (fs : FS) (p : String) (v : Content) :
    ( update_yaml_annotation true fs p v).2.1 = fs ∧
    ( update_yaml_annotation true fs p v).2.2 = [] := by
  unfold update_yaml_annotation
  split
  · exact ⟨rfl, rfl⟩
  · split
    · exact ⟨rfl, rfl⟩
    · exact ⟨rfl, rfl⟩

theorem patchFold_vllm_effects (d : Bool) (v : Content) :
    ∀ (files : List String) (acc : List String × FS × List Effect),
      (∀ e ∈ acc.2.2, ∃ q c, e = Effect.fsWrite q c) →
      ∀ e ∈ (files.foldl (patchStepVllm d v) acc).2.2, ∃ q c, e = Effect.fsWrite q c := by
  intro files
  induction files with
  | nil => intro acc hacc e he; exact hacc e he
  | cons f fs ih =>
    intro acc hacc
    apply ih
    intro e he
    simp only [patchStepVllm] at he
    rcases List.mem_append.mp he with h1 | h1
    · exact hacc e h1
    · exact update_dockerfile_effects d acc.2.1 f v e h1

theorem patchFold_odh_effects (d : Bool) (v : Content) :
    ∀ (files : List String) (acc : List String × FS × List Effect),
      (∀ e ∈ acc.2.2, ∃ q c, e = Effect.fsWrite q c) →
      ∀ e ∈ (files.foldl (patchStepOdh d v) acc).2.2, ∃ q c, e = Effect.fsWrite q c := by
  intro files
  induction files with
  | nil => intro acc hacc e he; exact hacc e he
  | cons f fs ih =>
    intro acc hacc
    apply ih
    intro e he
    simp only [patchStepOdh] at he
    rcases List.mem_append.mp he with h1 | h1
    · exact hacc e h1
    · exact update_yaml_effects d acc.2.1 f v e h1

theorem patchPassVllm_effects (d : Bool) (fs : FS) (files : List String) (v : Content) :
    ∀ e ∈ (patchPassVllm d fs files v).2.2, ∃ q c, e = Effect.fsWrite q c :=
  patchFold_vllm_effects d v files ([], fs, []) (by intro e he; simp at he)

theorem patchPassOdh_effects (d : Bool) (fs : FS) (files : List String) (v : Content) :
    ∀ e ∈ (patchPassOdh d fs files v).2.2, ∃ q c, e = Effect.fsWrite q c :=
  patchFold_odh_effects d v files ([], fs, []) (by intro e he; simp at he)

theorem fsWrite_not_publish (q : String) (c : Content) :
    isPublishEffect (Effect.fsWrite q c) = false := rfl

theorem patchFold_vllm_dry (v : Content) :
    ∀ (files : List String) (acc : List String × FS × List Effect),
      (files.foldl (patchStepVllm true v) acc).2.1 = acc.2.1 ∧
      (files.foldl (patchStepVllm true v) acc).2.2 = acc.2.2 := by
  intro files
  induction files with
  | nil => intro acc; exact ⟨rfl, rfl⟩
  | cons f fs ih =>
    intro acc
    have hstep : (patchStepVllm true v acc f).2.1 = acc.2.1 ∧
        (patchStepVllm true v acc f).2.2 = acc.2.2 := by
      obtain ⟨h1, h2⟩ := update_dockerfile_dry acc.2.1 f v
      simp [patchStepVllm, h1, h2]
    obtain ⟨ih1, ih2⟩ := ih (patchStepVllm true v acc f)
    exact ⟨by rw [List.foldl_cons, ih1, hstep.1], by rw [List.foldl_cons, ih2, hstep.2]⟩

theorem patchFold_odh_dry (v : Content) :
    ∀ (files : List String) (acc : List String × FS × List Effect),
      (files.foldl (patchStepOdh true v) acc).2.1 = acc.2.1 ∧
      (files.foldl (patchStepOdh true v) acc).2.2 = acc.2.2 := by
  intro files
  induction files with
  | nil => intro acc; exact ⟨rfl, rfl⟩
  | cons f fs ih =>
    intro acc
    have hstep : (patchStepOdh true v acc f).2.1 = acc.2.1 ∧
        (patchStepOdh true v acc f).2.2 = acc.2.2 := by
      obtain ⟨h1, h2⟩ := update_yaml_dry acc.2.1 f v
      simp [patchStepOdh, h1, h2]
    obtain ⟨ih1, ih2⟩ := ih (patchStepOdh true v acc f)
    exact ⟨by rw [List.foldl_cons, ih1, hstep.1], by rw [List.foldl_cons, ih2, hstep.2]⟩

theorem odhLoop_effects (env : Env) :
    ∀ (rts : List (String × Content)) (a : OdhAcc),
      (∀ e ∈ a.effs, ∃ q c, e = Effect.fsWrite q c) →
      ∀ e ∈ (rts.foldl (odhStep env) a).effs, ∃ q c, e = Effect.fsWrite q c := by
  intro rts
  induction rts with
  | nil => intro a ha e he; exact ha e he
  | cons r rs ih =>
    intro a ha
    apply ih
    intro e he
    simp only [odhStep] at he
    rcases List.mem_append.mp he with h1 | h1
    · exact ha e h1
    · exact patchPassOdh_effects env.dryRun a.fs _ r.2 e h1

theorem odhLoop_dry (env : Env) (hdry : env.dryRun = true) :
    ∀ (rts : List (String × Content)) (a : OdhAcc),
      (rts.foldl (odhStep env) a).fs = a.fs ∧
      (rts.foldl (odhStep env) a).effs = a.effs := by
  intro rts
  induction rts with
  | nil => intro a; exact ⟨rfl, rfl⟩
  | cons r rs ih =>
    intro a
    have hstep : (odhStep env a r).fs = a.fs ∧ (odhStep env a r).effs = a.effs := by
      have h := patchFold_odh_dry r.2 (match lookupA ODH_MODEL_CONTROLLER_MAPPINGS r.1 with
        | some rf => rf.2
        | none => []) ([], a.fs, [])
      simp only [odhStep, patchPassOdh, hdry]
      exact ⟨h.1, by rw [h.2]; simp⟩
    obtain ⟨ih1, ih2⟩ := ih (odhStep env a r)
    exact ⟨by rw [List.foldl_cons, ih1, hstep.1], by rw [List.foldl_cons, ih2, hstep.2]⟩

/-! ## No-match and missing-file behavior of the patchers -/

theorem subVllm_no_match {c v : Content}
    (h : ∀ l ∈ splitLines c, matchVllmLine l = none) : subVllm c v = c := by
  unfold subVllm
  rw [show (splitLines c).map (patchVllmLine · v) = (splitLines c).map id from
      List.map_congr_left fun l hl => by simp [patchVllmLine, h l hl]]
  rw [List.map_id, joinLines_splitLines]

theorem subOdh_no_match {c v : Content}
    (h : ∀ l ∈ splitLines c, matchOdhLine l = none) : subOdh c v = c := by
  unfold subOdh
  rw [show (splitLines c).map (patchOdhLine · v) = (splitLines c).map id from
      List.map_congr_left fun l hl => by simp [patchOdhLine, h l hl]]
  rw [List.map_id, joinLines_splitLines]

theorem patchFold_vllm_missing (d : Bool) (v : Content) :
    ∀ (files : List String) (acc : List String × FS × List Effect),
      (∀ f ∈ files, fsGet acc.2.1 f = none) →
      files.foldl (patchStepVllm d v) acc = acc := by
  intro files
  induction files with
  | nil => intro acc _; rfl
  | cons f fs ih =>
    intro acc hmiss
    have hupd : update_dockerfile_version d acc.2.1 f v = (false, acc.2.1, []) := by
      unfold update_dockerfile_version
      rw [hmiss f (List.mem_cons_self f fs)]
    have hstep : patchStepVllm d v acc f = acc := by
      simp [patchStepVllm, hupd]
    rw [List.foldl_cons, hstep]
    exact ih acc fun g hg => hmiss g (List.mem_cons_of_mem f hg)

/-! ## Claim theorems -/

/-- **C4** (counterexample).  The claim asserts idempotence of the
patches for *every* version string.  For the annotation patch and the
version string `"4.5.6"` (with literal double quotes), the first
application turns `opendatahub.io/runtime-version: 1.2.3` into
`opendatahub.io/runtime-version: "4.5.6"`, and the second application
matches the freshly introduced quotes as the quote group and produces
`opendatahub.io/runtime-version: ""4.5.6""` — a second change, written
to disk. -/
theorem c4_counterexample :
    subOdh (subOdh "opendatahub.io/runtime-version: 1.2.3".data "\"4.5.6\"".data)
        "\"4.5.6\"".data ≠
      subOdh "opendatahub.io/runtime-version: 1.2.3".data "\"4.5.6\"".data := by
  decide

/-- **C4** (amended).  For every file content and every version string
that is nonempty, contains no quote character and no CR/LF, and does
not begin with whitespace, applying either patch a second time with
the same target version leaves the file byte-for-byte identical, and
the second application performs no filesystem write (the update
functions return `changed = false` with the filesystem unchanged and
no effects). -/
theorem c4_patch_idempotence (c v : Content) (hv : goodVersion v) :
    subVllm (subVllm c v) v = subVllm c v ∧
    subOdh (subOdh c v) v = subOdh c v ∧
    (∀ d fs p, fsGet fs p = some (subVllm c v) →
      update_dockerfile_version d fs p v = (false, fs, [])) ∧
    (∀ d fs p, fsGet fs p = some (subOdh c v) →
       update_yaml_annotation d fs p v = (false, fs, [])) := by
  refine ⟨subVllm_idem hv, subOdh_idem hv, ?_, ?_⟩
  · intro d fs p hget
    unfold update_dockerfile_version
    rw [hget]
    simp [subVllm_idem hv]
  · intro d fs p hget
    unfold update_yaml_annotation
    rw [hget]
    simp [subOdh_idem hv]

/-- Witness for C4 at content `ARG VLLM_VERSION=1.2.3` /
`opendatahub.io/runtime-version: 1.2.3` and version `4.5.6`. -/
theorem c4_witness :
    goodVersion "4.5.6".data ∧
    (subVllm (subVllm "ARG VLLM_VERSION=1.2.3".data "4.5.6".data) "4.5.6".data =
        subVllm "ARG VLLM_VERSION=1.2.3".data "4.5.6".data ∧
      subOdh (subOdh "ARG VLLM_VERSION=1.2.3".data "4.5.6".data) "4.5.6".data =
        subOdh "ARG VLLM_VERSION=1.2.3".data "4.5.6".data ∧
      (∀ d fs p, fsGet fs p = some (subVllm "ARG VLLM_VERSION=1.2.3".data "4.5.6".data) →
        update_dockerfile_version d fs p "4.5.6".data = (false, fs, [])) ∧
      (∀ d fs p, fsGet fs p = some (subOdh "ARG VLLM_VERSION=1.2.3".data "4.5.6".data) →
         update_yaml_annotation d fs p "4.5.6".data = (false, fs, []))) :=
  ⟨by decide, c4_patch_idempotence "ARG VLLM_VERSION=1.2.3".data "4.5.6".data (by decide)⟩

/-- **C5** (counterexample).  The claim asserts that the annotation
patch reproduces the original trailing whitespace exactly for every
matching line.  For the unquoted line
`  opendatahub.io/runtime-version: 1.2.3␣␣` the greedy value group
absorbs the two trailing spaces (space is in `[^"'\r\n]`), the trailing
group is empty, and the patched line `  opendatahub.io/runtime-version: 4.5.6`
drops them. -/
theorem c5_counterexample :
    subOdhS "  opendatahub.io/runtime-version: 1.2.3  " "4.5.6" =
        "  opendatahub.io/runtime-version: 4.5.6" ∧
    subOdhS "  opendatahub.io/runtime-version: 1.2.3  " "4.5.6" ≠
        "  opendatahub.io/runtime-version: 4.5.6  " :=
  ⟨by decide, by decide⟩

/-- **C5** (amended).  For every line matching the runtime-version
annotation pattern, the patch replaces only the value span and
reproduces the original indentation and quoting style; the trailing
whitespace is reproduced exactly for quoted values (and for unquoted
values without trailing whitespace, where the trailing group is empty);
for unquoted values, trailing whitespace is part of the greedy value
span and is replaced together with it.  In particular
`  key: "1.2.3"` with target `4.5.6` yields `  key: "4.5.6"`. -/
theorem c5_annotation_preservation (ind w kws v0 tr v : Content) (c : Char)
    (hind : ∀ x ∈ ind, pySpace x = true) (hw : ∀ x ∈ w, pySpace x = true)
    (hkws : ∀ x ∈ kws, pySpace x = true) (hq : isQuoteCh c = true)
    (hv0 : v0 ≠ []) (hv0c : ∀ x ∈ v0, valueChar x = true)
    (hv0h : pySpace (v0.headD ' ') = false)
    (htr : ∀ x ∈ tr, pySpace x = true) :
    patchOdhLine (ind ++ odhKey ++ w ++ ':' :: kws ++ c :: v0 ++ c :: tr) v =
      ind ++ odhKey ++ w ++ ':' :: kws ++ c :: v ++ c :: tr ∧
    patchOdhLine (ind ++ odhKey ++ w ++ ':' :: kws ++ v0) v =
      ind ++ odhKey ++ w ++ ':' :: kws ++ v ∧
    subOdhS "  opendatahub.io/runtime-version: \"1.2.3\"" "4.5.6" =
      "  opendatahub.io/runtime-version: \"4.5.6\"" := by
  refine ⟨?_, ?_, by decide⟩
  · have hm1 := matchOdhLine_complete (m := ⟨ind, w, kws, ⟨some c, v0, tr⟩⟩)
      ⟨hind, hw, hkws, hv0, hv0c, htr, hq⟩ trivial
    have e1 : ind ++ odhKey ++ w ++ ':' :: kws ++ c :: v0 ++ c :: tr =
        assembleOdh ⟨ind, w, kws, ⟨some c, v0, tr⟩⟩ := by
      simp [assembleOdh, tailText, List.append_assoc]
    rw [e1]
    simp only [patchOdhLine, hm1, odhReplacement]
    simp [List.append_assoc]
  · have hnv : noWsValueHead (⟨none, v0, []⟩ : TailMatch) := by
      simp only [noWsValueHead]
      cases v0 with
      | nil => exact absurd rfl hv0
      | cons h t => exact ⟨h, t, rfl, by simpa using hv0h⟩
    have hm2 := matchOdhLine_complete (m := ⟨ind, w, kws, ⟨none, v0, []⟩⟩)
      ⟨hind, hw, hkws, hv0, hv0c, by simp, Or.inl rfl⟩ hnv
    have e2 : ind ++ odhKey ++ w ++ ':' :: kws ++ v0 =
        assembleOdh ⟨ind, w, kws, ⟨none, v0, []⟩⟩ := by
      simp [assembleOdh, tailText, List.append_assoc]
    rw [e2]
    simp only [patchOdhLine, hm2, odhReplacement]
    simp [List.append_assoc]

/-- Witness for C5 at `  opendatahub.io/runtime-version: '1.2.3'  `
(single quotes, trailing spaces) and version `4.5.6`. -/
theorem c5_witness :
    (∀ x ∈ "  ".data, pySpace x = true) ∧ (∀ x ∈ ([] : Content), pySpace x = true) ∧
    (∀ x ∈ " ".data, pySpace x = true) ∧ isQuoteCh '\'' = true ∧
    "1.2.3".data ≠ [] ∧ (∀ x ∈ "1.2.3".data, valueChar x = true) ∧
    pySpace ("1.2.3".data.headD ' ') = false ∧
    (∀ x ∈ "  ".data, pySpace x = true) ∧
    (patchOdhLine ("  ".data ++ odhKey ++ [] ++ ':' :: " ".data ++
        '\'' :: "1.2.3".data ++ '\'' :: "  ".data) "4.5.6".data =
      "  ".data ++ odhKey ++ [] ++ ':' :: " ".data ++
        '\'' :: "4.5.6".data ++ '\'' :: "  ".data ∧
     patchOdhLine ("  ".data ++ odhKey ++ [] ++ ':' :: " ".data ++ "1.2.3".data)
        "4.5.6".data =
      "  ".data ++ odhKey ++ [] ++ ':' :: " ".data ++ "4.5.6".data ∧
     subOdhS "  opendatahub.io/runtime-version: \"1.2.3\"" "4.5.6" =
      "  opendatahub.io/runtime-version: \"4.5.6\"") :=
  ⟨by decide, by decide, by decide, by decide, by decide, by decide, by decide, by decide,
    c5_annotation_preservation "  ".data [] " ".data "1.2.3".data "  ".data "4.5.6".data '\''
      (by decide) (by decide) (by decide) (by decide) (by decide) (by decide) (by decide)
      (by decide)⟩

/-- **C6** (confirmed).  For every line matching the
`ARG VLLM_VERSION` pattern, the patched output wraps the new version in
double quotes regardless of the captured quote group (the replacement
does not mention it); concretely, unquoted, single-quoted and
double-quoted inputs all produce `ARG VLLM_VERSION="4.5.6"`. -/
theorem c6_build_arg_normalization :
    (∀ l v m, matchVllmLine l = some m →
      patchVllmLine l v =
        m.ind ++ "ARG".data ++ m.ws1 ++ "VLLM_VERSION".data ++ m.ws2 ++
          '=' :: m.kws ++ '"' :: v ++ '"' :: m.tm.trail) ∧
    subVllmS "ARG VLLM_VERSION=1.2.3" "4.5.6" = "ARG VLLM_VERSION=\"4.5.6\"" ∧
    subVllmS "ARG VLLM_VERSION='1.2.3'" "4.5.6" = "ARG VLLM_VERSION=\"4.5.6\"" ∧
    subVllmS "ARG VLLM_VERSION=\"1.2.3\"" "4.5.6" = "ARG VLLM_VERSION=\"4.5.6\"" := by
  refine ⟨?_, by decide, by decide, by decide⟩
  intro l v m hm
  simp [patchVllmLine, hm, vllmReplacement]

/-- Witness for C6 at the unquoted line `ARG VLLM_VERSION=1.2.3`. -/
theorem c6_witness :
    matchVllmLine "ARG VLLM_VERSION=1.2.3".data =
      some ⟨[], " ".data, [], [], ⟨none, "1.2.3".data, []⟩⟩ ∧
    patchVllmLine "ARG VLLM_VERSION=1.2.3".data "4.5.6".data =
      [] ++ "ARG".data ++ " ".data ++ "VLLM_VERSION".data ++ [] ++
        '=' :: [] ++ '"' :: "4.5.6".data ++ '"' :: [] :=
  ⟨by decide,
    c6_build_arg_normalization.1 "ARG VLLM_VERSION=1.2.3".data "4.5.6".data
      ⟨[], " ".data, [], [], ⟨none, "1.2.3".data, []⟩⟩ (by decide)⟩

/-- **C9** (confirmed).  Silent-skip policy: a missing target file
makes the patch report "unchanged" (no failure, no write, no effect);
a file whose lines never match the key pattern is likewise reported
unchanged; and a run whose target files are all missing still returns
the normal "No changes needed" summary line instead of aborting. -/
theorem c9_silent_skip :
    (∀ d fs p v, fsGet fs p = none →
      update_dockerfile_version d fs p v = (false, fs, []) ∧
       update_yaml_annotation d fs p v = (false, fs, [])) ∧
    (∀ d fs p v c, fsGet fs p = some c →
      (∀ l ∈ splitLines c, matchVllmLine l = none) →
      update_dockerfile_version d fs p v = (false, fs, [])) ∧
    (∀ d fs p v c, fsGet fs p = some c →
      (∀ l ∈ splitLines c, matchOdhLine l = none) →
       update_yaml_annotation d fs p v = (false, fs, [])) ∧
    (∀ env runtime v rf fs, lookupA REPO_MAPPINGS runtime = some rf →
      env.cloneFS rf.1 = Except.ok fs →
      (∀ f ∈ rf.2, fsGet fs f = none) →
      (process_runtime env runtime v).1 = "⚠️ " ++ runtime ++ ": No changes needed") := by
  refine ⟨?_, ?_, ?_, ?_⟩
  · intro d fs p v hget
    constructor
    · unfold update_dockerfile_version
      rw [hget]
    · unfold update_yaml_annotation
      rw [hget]
  · intro d fs p v c hget hno
    unfold update_dockerfile_version
    rw [hget]
    simp [subVllm_no_match hno]
  · intro d fs p v c hget hno
    unfold update_yaml_annotation
    rw [hget]
    simp [subOdh_no_match hno]
  · intro env runtime v rf fs hrf hclone hmiss
    have hpass : patchPassVllm env.dryRun fs rf.2 v = ([], fs, []) :=
      patchFold_vllm_missing env.dryRun v rf.2 ([], fs, []) hmiss
    simp [process_runtime, hrf, hclone, hpass]

/-- Witness for C9: a working copy holding only `README.md`, a target
file that does not exist, and a config file whose lines lack the keys. -/
theorem c9_witness :
    (fsGet [("README.md", "hi".data)] "Dockerfile.ubi" = none ∧
      (update_dockerfile_version false [("README.md", "hi".data)] "Dockerfile.ubi"
          "1".data = (false, [("README.md", "hi".data)], []) ∧
        update_yaml_annotation false [("README.md", "hi".data)] "Dockerfile.ubi"
          "1".data = (false, [("README.md", "hi".data)], []))) ∧
    (fsGet [("f", "FROM x".data)] "f" = some "FROM x".data ∧
      (∀ l ∈ splitLines "FROM x".data, matchVllmLine l = none) ∧
      update_dockerfile_version false [("f", "FROM x".data)] "f" "1".data =
        (false, [("f", "FROM x".data)], [])) := by
  constructor
  · exact ⟨by decide,
      (c9_silent_skip.1 false [("README.md", "hi".data)] "Dockerfile.ubi" "1".data
        (by decide))⟩
  · exact ⟨by decide, by decide,
      c9_silent_skip.2.1 false [("f", "FROM x".data)] "f" "1".data "FROM x".data
        (by decide) (by decide)⟩

/-- **C1** (confirmed).  A branch/commit/push/PR-API call happens only
when the patch pass updated at least one file, an update is reported
exactly when the patched content differs from the stored content, and
when nothing changes the result is the "no changes" outcome with no
publishing effect — for the per-runtime vllm processing and for the
odh repository processing alike. -/
theorem c1_pr_only_on_change (env : Env) (runtime : String) (version : Content)
    (rv : List (String × Content)) :
    (∀ d fs p, (update_dockerfile_version d fs p version).1 = true ↔
      ∃ c, fsGet fs p = some c ∧ subVllm c version ≠ c) ∧
    (∀ rf fs, lookupA REPO_MAPPINGS runtime = some rf →
      env.cloneFS rf.1 = Except.ok fs →
      (patchPassVllm env.dryRun fs rf.2 version).1 = [] →
      (process_runtime env runtime version).1 =
        "⚠️ " ++ runtime ++ ": No changes needed" ∧
      ∀ e ∈ (process_runtime env runtime version).2.2, isPublishEffect e = false) ∧
    ((∃ e ∈ (process_runtime env runtime version).2.2, isPublishEffect e = true) →
      ∃ rf fs, lookupA REPO_MAPPINGS runtime = some rf ∧
        env.cloneFS rf.1 = Except.ok fs ∧
        (patchPassVllm env.dryRun fs rf.2 version).1 ≠ []) ∧
    (∀ fs0, env.cloneFS "red-hat-data-services/odh-model-controller" = Except.ok fs0 →
      (odhPatchLoop env rv fs0).allFiles = [] →
      (process_odh_updates env rv).1 = none ∧
      ∀ e ∈ (process_odh_updates env rv).2.2, isPublishEffect e = false) ∧
    ((∃ e ∈ (process_odh_updates env rv).2.2, isPublishEffect e = true) →
      odhSelected rv ≠ [] ∧
      ∃ fs0, env.cloneFS "red-hat-data-services/odh-model-controller" = Except.ok fs0 ∧
        (odhPatchLoop env rv fs0).allFiles ≠ []) := by
  refine ⟨?_, ?_, ?_, ?_, ?_⟩
  · -- update reports a change iff the patched content differs
    intro d fs p
    constructor
    · intro htrue
      unfold update_dockerfile_version at htrue
      split at htrue
      · cases htrue
      · rename_i c heq
        split at htrue
        · cases htrue
        · rename_i hne
          exact ⟨c, heq, fun h => hne h.symm⟩
    · rintro ⟨c, heq, hne⟩
      unfold update_dockerfile_version
      rw [heq]
      simp only [if_neg (fun h => hne (Eq.symm h))]
      split <;> rfl
  · -- no change: "No changes needed", no publishing effect
    intro rf fs hrf hclone hpass
    constructor
    · simp [process_runtime, hrf, hclone, hpass]
    · intro e he
      simp only [process_runtime, hrf, hclone, hpass] at he
      rcases (by simpa using he : e = Effect.gitClone rf.1 ∨
          e = Effect.gitCheckout env.targetBranch ∨
          e ∈ (patchPassVllm env.dryRun fs rf.2 version).2.2) with h1 | h1 | h1
      · rw [h1]; rfl
      · rw [h1]; rfl
      · obtain ⟨q, cc, rfl⟩ := patchPassVllm_effects env.dryRun fs rf.2 version e h1
        rfl
  · -- a publishing effect happened: the patch pass updated something
    rintro ⟨e, he, hpub⟩
    rcases hrf : lookupA REPO_MAPPINGS runtime with _ | rf
    · simp only [process_runtime, hrf] at he
      exact absurd he (List.not_mem_nil e)
    · rcases hclone : env.cloneFS rf.1 with err | fs
      · simp only [process_runtime, hrf, hclone] at he
        simp only [List.mem_singleton] at he
        rw [he] at hpub
        cases hpub
      · by_cases hpass : (patchPassVllm env.dryRun fs rf.2 version).1 = []
        · simp only [process_runtime, hrf, hclone, hpass] at he
          rcases (by simpa using he : e = Effect.gitClone rf.1 ∨
              e = Effect.gitCheckout env.targetBranch ∨
              e ∈ (patchPassVllm env.dryRun fs rf.2 version).2.2) with h1 | h1 | h1
          · rw [h1] at hpub; cases hpub
          · rw [h1] at hpub; cases hpub
          · obtain ⟨q, cc, rfl⟩ := patchPassVllm_effects env.dryRun fs rf.2 version e h1
            cases hpub
        · exact ⟨rf, fs, rfl, hclone, hpass⟩
  · -- odh: nothing changed
    intro fs0 hclone hall
    by_cases hsel : odhSelected rv = []
    · constructor
      · simp [process_odh_updates, hsel]
      · intro e he
        simp only [process_odh_updates, hsel] at he
        exact absurd he (List.not_mem_nil e)
    · constructor
      · simp [process_odh_updates, hsel, hclone, hall]
      · intro e he
        simp only [process_odh_updates, hsel, hclone, hall] at he
        rcases (by simpa using he :
            e = Effect.gitClone "red-hat-data-services/odh-model-controller" ∨
            e = Effect.gitCheckout env.targetBranch ∨
            e ∈ (odhPatchLoop env rv fs0).effs) with h1 | h1 | h1
        · rw [h1]; rfl
        · rw [h1]; rfl
        · obtain ⟨q, cc, rfl⟩ := odhLoop_effects env (odhSelected rv) ⟨[], [], fs0, []⟩
            (by intro x hx; exact absurd hx (List.not_mem_nil x)) e h1
          rfl
  · -- odh: a publishing effect happened
    rintro ⟨e, he, hpub⟩
    by_cases hsel : odhSelected rv = []
    · simp only [process_odh_updates, hsel] at he
      exact absurd he (List.not_mem_nil e)
    · refine ⟨hsel, ?_⟩
      rcases hclone : env.cloneFS "red-hat-data-services/odh-model-controller" with err | fs0
      · simp only [process_odh_updates, hsel, hclone] at he
        have he2 : e = Effect.gitClone "red-hat-data-services/odh-model-controller" := by
          simpa using he
        rw [he2] at hpub
        cases hpub
      · by_cases hall : (odhPatchLoop env rv fs0).allFiles = []
        · simp only [process_odh_updates, hsel, hclone, hall] at he
          rcases (by simpa using he :
              e = Effect.gitClone "red-hat-data-services/odh-model-controller" ∨
              e = Effect.gitCheckout env.targetBranch ∨
              e ∈ (odhPatchLoop env rv fs0).effs) with h1 | h1 | h1
          · rw [h1] at hpub; cases hpub
          · rw [h1] at hpub; cases hpub
          · obtain ⟨q, cc, rfl⟩ := odhLoop_effects env (odhSelected rv) ⟨[], [], fs0, []⟩
              (by intro x hx; exact absurd hx (List.not_mem_nil x)) e h1
            cases hpub
        · exact ⟨fs0, rfl, hall⟩

def envC1w : Env :=
  ⟨"t", "main", "all", false, some [("vllm", "0.9.0".data)],
   fun _ => Except.ok [("Dockerfile.ubi", "ARG VLLM_VERSION=\"0.9.0\"".data)],
   fun _ => none, fun _ => 201, fun _ => "u"⟩

/-- Witness for C1: a repository already at the target version produces
the "No changes needed" result and no publishing effect. -/
theorem c1_witness :
    (lookupA REPO_MAPPINGS "vllm" =
        some ("red-hat-data-services/vllm", ["Dockerfile.ubi"]) ∧
      envC1w.cloneFS "red-hat-data-services/vllm" =
        Except.ok [("Dockerfile.ubi", "ARG VLLM_VERSION=\"0.9.0\"".data)] ∧
      (patchPassVllm envC1w.dryRun [("Dockerfile.ubi", "ARG VLLM_VERSION=\"0.9.0\"".data)]
        ["Dockerfile.ubi"] "0.9.0".data).1 = []) ∧
    ((process_runtime envC1w "vllm" "0.9.0".data).1 =
        "⚠️ " ++ "vllm" ++ ": No changes needed" ∧
      ∀ e ∈ (process_runtime envC1w "vllm" "0.9.0".data).2.2,
        isPublishEffect e = false) :=
  ⟨⟨by decide, rfl, by decide⟩,
   (c1_pr_only_on_change envC1w "vllm" "0.9.0".data []).2.1
     ("red-hat-data-services/vllm", ["Dockerfile.ubi"])
     [("Dockerfile.ubi", "ARG VLLM_VERSION=\"0.9.0\"".data)]
     (by decide) rfl (by decide)⟩

theorem create_pr_vllm_dry (env : Env) (hdry : env.dryRun = true)
    (repo runtime : String) (version : Content) (files : List String) (hc : Bool) :
    create_pr_vllm env repo runtime version files hc =
      (Except.ok (some "dry-run-pr-url"), []) := by
  simp [create_pr_vllm, hdry]

theorem create_pr_odh_dry (env : Env) (hdry : env.dryRun = true)
    (repo : String) (ru files : List String) (hc : Bool) :
    create_pr_odh env repo ru files hc =
      (Except.ok (some "dry-run-pr-url"), []) := by
  simp [create_pr_odh, hdry]

/-- **C3** (confirmed).  With dry-run enabled nothing is written to the
working copy, no branch/commit/push and no PR-API call happens — only
clone/checkout and the temp-directory bookkeeping — and when the patch
pass would have updated files, the per-runtime result uses the
"Would create PR (dry run)" wording. -/
theorem c3_dry_run (env : Env) (runtime : String) (version : Content)
    (rv : List (String × Content)) (hdry : env.dryRun = true) :
    (∀ fs p, (update_dockerfile_version true fs p version).2.1 = fs ∧
      (update_dockerfile_version true fs p version).2.2 = []) ∧
    (∀ fs p, ( update_yaml_annotation true fs p version).2.1 = fs ∧
      ( update_yaml_annotation true fs p version).2.2 = []) ∧
    (∀ e ∈ (process_runtime env runtime version).2.2, isMutatingEffect e = false) ∧
    (∀ e ∈ (process_odh_updates env rv).2.2, isMutatingEffect e = false) ∧
    (∀ rf fs, lookupA REPO_MAPPINGS runtime = some rf →
      env.cloneFS rf.1 = Except.ok fs →
      (patchPassVllm true fs rf.2 version).1 ≠ [] →
      (process_runtime env runtime version).1 =
        "🔍 " ++ runtime ++ ": Would create PR (dry run)") ∧
    (∀ fs0, env.cloneFS "red-hat-data-services/odh-model-controller" = Except.ok fs0 →
      (odhPatchLoop env rv fs0).allFiles ≠ [] →
      (process_odh_updates env rv).1 = some "dry-run" ∧
      (process_odh_updates env rv).2.1 =
        "Would create PR in red-hat-data-services/odh-model-controller (dry run)") := by
  have hppd : ∀ fs files, (patchPassVllm true fs files version).2.2 = [] := by
    intro fs files
    exact (patchFold_vllm_dry version files ([], fs, [])).2
  refine ⟨fun fs p => update_dockerfile_dry fs p version,
    fun fs p => update_yaml_dry fs p version, ?_, ?_, ?_, ?_⟩
  · -- no mutating effect from process_runtime
    intro e he
    rcases hrf : lookupA REPO_MAPPINGS runtime with _ | rf
    · simp only [process_runtime, hrf] at he
      exact absurd he (List.not_mem_nil e)
    · rcases hclone : env.cloneFS rf.1 with err | fs
      · simp only [process_runtime, hrf, hclone] at he
        have he2 : e = Effect.gitClone rf.1 := by simpa using he
        rw [he2]; rfl
      · by_cases hpass : (patchPassVllm env.dryRun fs rf.2 version).1 = []
        · simp only [process_runtime, hrf, hclone, hpass] at he
          rcases (by simpa using he : e = Effect.gitClone rf.1 ∨
              e = Effect.gitCheckout env.targetBranch ∨
              e ∈ (patchPassVllm env.dryRun fs rf.2 version).2.2) with h1 | h1 | h1
          · rw [h1]; rfl
          · rw [h1]; rfl
          · rw [hdry] at h1
            rw [hppd fs rf.2] at h1
            exact absurd h1 (List.not_mem_nil e)
        · have hpassT : ¬((patchPassVllm true fs rf.2 version).1 = []) := by
            rw [← hdry]; exact hpass
          simp only [process_runtime, hrf, hclone, hpassT,
            create_pr_vllm_dry env hdry, hdry] at he
          rcases (by simpa using he : e = Effect.gitClone rf.1 ∨
              e = Effect.gitCheckout env.targetBranch ∨
              e ∈ (patchPassVllm true fs rf.2 version).2.2) with h1 | h1 | h1
          · rw [h1]; rfl
          · rw [h1]; rfl
          · rw [hppd fs rf.2] at h1
            exact absurd h1 (List.not_mem_nil e)
  · -- no mutating effect from process_odh_updates
    intro e he
    have hloopd := odhLoop_dry env hdry (odhSelected rv)
    by_cases hsel : odhSelected rv = []
    · simp only [process_odh_updates, hsel] at he
      exact absurd he (List.not_mem_nil e)
    · rcases hclone : env.cloneFS "red-hat-data-services/odh-model-controller"
        with err | fs0
      · simp only [process_odh_updates, hsel, hclone] at he
        have he2 : e = Effect.gitClone "red-hat-data-services/odh-model-controller" := by
          simpa using he
        rw [he2]; rfl
      · by_cases hall : (odhPatchLoop env rv fs0).allFiles = []
        · simp only [process_odh_updates, hsel, hclone, hall] at he
          rcases (by simpa using he :
              e = Effect.gitClone "red-hat-data-services/odh-model-controller" ∨
              e = Effect.gitCheckout env.targetBranch ∨
              e ∈ (odhPatchLoop env rv fs0).effs) with h1 | h1 | h1
          · rw [h1]; rfl
          · rw [h1]; rfl
          · rw [show (odhPatchLoop env rv fs0).effs = [] from
              (hloopd ⟨[], [], fs0, []⟩).2] at h1
            exact absurd h1 (List.not_mem_nil e)
        · simp only [process_odh_updates, hsel, hclone, hall,
            create_pr_odh_dry env hdry, hdry] at he
          rcases (by simpa using he :
              e = Effect.gitClone "red-hat-data-services/odh-model-controller" ∨
              e = Effect.gitCheckout env.targetBranch ∨
              e ∈ (odhPatchLoop env rv fs0).effs) with h1 | h1 | h1
          · rw [h1]; rfl
          · rw [h1]; rfl
          · rw [show (odhPatchLoop env rv fs0).effs = [] from
              (hloopd ⟨[], [], fs0, []⟩).2] at h1
            exact absurd h1 (List.not_mem_nil e)
  · -- "Would create PR (dry run)" wording
    intro rf fs hrf hclone hpass
    simp [process_runtime, hrf, hclone, hpass, create_pr_vllm_dry env hdry, hdry]
  · -- odh dry-run wording
    intro fs0 hclone hall
    have hsel : ¬(odhSelected rv = []) := by
      intro h0
      apply hall
      simp [odhPatchLoop, h0]
    constructor <;>
      simp [process_odh_updates, hsel, hclone, hall, create_pr_odh_dry env hdry, hdry]

def envC3w : Env :=
  ⟨"t", "main", "all", true, some [("vllm", "9.9.9".data)],
   fun _ => Except.ok [("Dockerfile.ubi", "ARG VLLM_VERSION=\"0.8.4\"".data)],
   fun _ => none, fun _ => 201, fun _ => "u"⟩

/-- Witness for C3: a dry run over a repository that would change. -/
theorem c3_witness :
    envC3w.dryRun = true ∧
    (∀ e ∈ (process_runtime envC3w "vllm" "1.2.3".data).2.2,
      isMutatingEffect e = false) :=
  ⟨rfl, (c3_dry_run envC3w "vllm" "1.2.3".data [] rfl).2.2.1⟩

def envC2 : Env :=
  ⟨"token", "main", "mystery-runtime", false,
   some [("mystery-runtime", "1.0.0".data)],
   fun _ => Except.error "network unavailable", fun _ => none, fun _ => 0, fun _ => ""⟩

/-- **C2** (counterexample).  The claim asserts that a provided filter
name absent from the pipeline's eligible runtime set causes a fatal
(nonzero) exit.  The odh script checks the filter against the full
loaded configuration instead: with a configuration entry
`mystery-runtime` that has no ODH mapping (so it is outside the
eligible set), `RUNTIME_FILTER=mystery-runtime` passes the check and
the run ends with exit code 0 and a "No ODH Model Controller updates
needed" summary instead of exiting fatally. -/
theorem c2_counterexample :
    lookupA ODH_MODEL_CONTROLLER_MAPPINGS "mystery-runtime" = none ∧
    envC2.runtimeFilter = "mystery-runtime" ∧
    run_odh envC2 =
      (0, some (none, "No ODH Model Controller updates needed"),
        [Effect.mkdtemp, Effect.rmtree]) := by
  refine ⟨by decide, rfl, by decide⟩

/-- **C2** (amended).  For a provided (nonempty) filter that is not
"all": in the build-argument pipeline, when its eligible set
(configuration ∩ REPO_MAPPINGS) is nonempty, an absent name exits
fatally with code 1 before any network activity (empty effect trace)
and a present name restricts processing to exactly that entry; in the
annotation pipeline the filter is checked against the full loaded
configuration — an absent name exits fatally with code 1 before any
network activity, a present name (even one without an ODH mapping)
restricts processing to exactly that entry. -/
theorem c2_filter_behavior (env : Env) (cfg : List (String × Content))
    (hcfg : env.configDoc = some cfg)
    (hne : env.runtimeFilter ≠ "") (hna : env.runtimeFilter ≠ "all") :
    (vllmEligible cfg ≠ [] →
      (lookupA (vllmEligible cfg) env.runtimeFilter = none →
        run_vllm env = (1, [], [])) ∧
      (∀ ver, lookupA (vllmEligible cfg) env.runtimeFilter = some ver →
        run_vllm env = runSelectedVllm env [(env.runtimeFilter, ver)])) ∧
    (lookupA (dictOfList cfg) env.runtimeFilter = none →
      run_odh env = (1, none, [])) ∧
    (∀ ver, lookupA (dictOfList cfg) env.runtimeFilter = some ver →
      run_odh env = runSelectedOdh env [(env.runtimeFilter, ver)]) := by
  refine ⟨fun hvv => ⟨?_, ?_⟩, ?_, ?_⟩
  · intro hlook
    simp [run_vllm, hcfg, hvv, hne, hna, hlook]
  · intro ver hlook
    simp [run_vllm, hcfg, hvv, hne, hna, hlook]
  · intro hlook
    simp [run_odh, hcfg, hne, hna, hlook]
  · intro ver hlook
    simp [run_odh, hcfg, hne, hna, hlook]

def envC2w : Env :=
  ⟨"t", "main", "nope", false, some [("vllm", "1".data)],
   fun _ => Except.error "e", fun _ => none, fun _ => 0, fun _ => ""⟩

/-- Witness for C2: an unknown filter over a nonempty eligible set
exits with code 1 and no effects. -/
theorem c2_witness :
    (envC2w.configDoc = some [("vllm", "1".data)] ∧ envC2w.runtimeFilter ≠ "" ∧
      envC2w.runtimeFilter ≠ "all" ∧ vllmEligible [("vllm", "1".data)] ≠ [] ∧
      lookupA (vllmEligible [("vllm", "1".data)]) envC2w.runtimeFilter = none) ∧
    run_vllm envC2w = (1, [], []) :=
  ⟨⟨rfl, by decide, by decide, by decide, by decide⟩,
   ((c2_filter_behavior envC2w [("vllm", "1".data)] rfl (by decide) (by decide)).1
     (by decide)).1 (by decide)⟩

def envC7 : Env :=
  ⟨"", "main", "all", false, some [("vllm", "1.0.0".data)],
   fun _ => Except.error "x", fun _ => none, fun _ => 0, fun _ => ""⟩

/-- **C7** (counterexample).  The claim asserts the exit code is
nonzero *only* on configuration-load failure or an unrecognized
runtime filter.  With a loadable configuration and filter "all" but an
unset/empty GITHUB_TOKEN, the constructor raises (uncaught) and the
process exits nonzero — a third cause. -/
theorem c7_counterexample :
    envC7.configDoc ≠ none ∧ envC7.runtimeFilter = "all" ∧
    (main_vllm envC7).1 = 1 :=
  ⟨by decide, rfl, rfl⟩

/-- **C7** (amended).  The process exit code of the build-argument
script is nonzero exactly when the credential is missing, the
configuration fails to load, or a provided runtime filter misses the
(nonempty) eligible set; every per-repository failure — clone failure,
git failure during PR creation, non-201 API response — is absorbed
into the summary (the oracles `cloneFS`, `gitResult`, `apiStatus` do
not occur in the condition). -/
theorem c7_exit_code (env : Env) :
    (main_vllm env).1 ≠ 0 ↔
      env.githubToken = "" ∨ env.configDoc = none ∨
      ∃ cfg, env.configDoc = some cfg ∧ vllmEligible cfg ≠ [] ∧
        env.runtimeFilter ≠ "" ∧ env.runtimeFilter ≠ "all" ∧
        lookupA (vllmEligible cfg) env.runtimeFilter = none := by
  by_cases htok : env.githubToken = ""
  · simp [main_vllm, htok]
  · rcases hcfg : env.configDoc with _ | cfg
    · simp [main_vllm, run_vllm, htok, hcfg]
    · by_cases hvv : vllmEligible cfg = []
      · simp [main_vllm, run_vllm, htok, hcfg, hvv]
      · by_cases hfc : env.runtimeFilter ≠ "" ∧ env.runtimeFilter ≠ "all"
        · rcases hlook : lookupA (vllmEligible cfg) env.runtimeFilter with _ | ver
          · simp [main_vllm, run_vllm, htok, hcfg, hvv, hfc.1, hfc.2, hlook]
          · simp [main_vllm, run_vllm, runSelectedVllm, htok, hcfg, hvv,
              hfc.1, hfc.2, hlook]
        · rcases not_and_or.mp hfc with h | h
          · have h' : env.runtimeFilter = "" := not_not.mp h
            simp [main_vllm, run_vllm, runSelectedVllm, htok, hcfg, hvv, hfc, h']
          · have h' : env.runtimeFilter = "all" := not_not.mp h
            simp [main_vllm, run_vllm, runSelectedVllm, htok, hcfg, hvv, hfc, h']

/-- **C8** (confirmed).  Whenever a run creates the per-run ephemeral
working directory (the `mkdtemp` effect), the effect trace has the
shape `mkdtemp :: body ++ [rmtree]`: the recursive removal happens at
the end of the run, for every environment — including clone failures,
git failures during PR creation (the exceptions caught at the
per-repository boundary) and failing API responses. -/
theorem c8_cleanup (env : Env) :
    (Effect.mkdtemp ∈ (run_vllm env).2.2 →
      ∃ E, (run_vllm env).2.2 = Effect.mkdtemp :: (E ++ [Effect.rmtree])) ∧
    (Effect.mkdtemp ∈ (run_odh env).2.2 →
      ∃ E, (run_odh env).2.2 = Effect.mkdtemp :: (E ++ [Effect.rmtree])) := by
  constructor
  · intro hm
    rcases hcfg : env.configDoc with _ | cfg
    · rw [show (run_vllm env).2.2 = [] from by simp [run_vllm, hcfg]] at hm
      exact absurd hm (List.not_mem_nil _)
    · by_cases hvv : vllmEligible cfg = []
      · rw [show (run_vllm env).2.2 = [] from by simp [run_vllm, hcfg, hvv]] at hm
        exact absurd hm (List.not_mem_nil _)
      · by_cases hfc : env.runtimeFilter ≠ "" ∧ env.runtimeFilter ≠ "all"
        · rcases hlook : lookupA (vllmEligible cfg) env.runtimeFilter with _ | ver
          · rw [show (run_vllm env).2.2 = [] from by
              simp [run_vllm, hcfg, hvv, hfc.1, hfc.2, hlook]] at hm
            exact absurd hm (List.not_mem_nil _)
          · refine ⟨((([(env.runtimeFilter, ver)].map
                (fun e => process_runtime env e.1 e.2)).map (fun r => r.2.2)).flatten), ?_⟩
            simp [run_vllm, runSelectedVllm, hcfg, hvv, hfc.1, hfc.2, hlook]
        · refine ⟨(((vllmEligible cfg).map
              (fun e => process_runtime env e.1 e.2)).map (fun r => r.2.2)).flatten, ?_⟩
          simp [run_vllm, runSelectedVllm, hcfg, hvv, hfc]
  · intro hm
    rcases hcfg : env.configDoc with _ | cfg
    · rw [show (run_odh env).2.2 = [] from by simp [run_odh, hcfg]] at hm
      exact absurd hm (List.not_mem_nil _)
    · by_cases hfc : env.runtimeFilter ≠ "" ∧ env.runtimeFilter ≠ "all"
      · rcases hlook : lookupA (dictOfList cfg) env.runtimeFilter with _ | ver
        · rw [show (run_odh env).2.2 = [] from by
            simp [run_odh, hcfg, hfc.1, hfc.2, hlook]] at hm
          exact absurd hm (List.not_mem_nil _)
        · refine ⟨(process_odh_updates env [(env.runtimeFilter, ver)]).2.2, ?_⟩
          simp [run_odh, runSelectedOdh, hcfg, hfc.1, hfc.2, hlook]
      · refine ⟨(process_odh_updates env (dictOfList cfg)).2.2, ?_⟩
        simp [run_odh, runSelectedOdh, hcfg, hfc]

def envC8w : Env :=
  ⟨"t", "main", "all", false, some [("vllm", "1".data)],
   fun _ => Except.error "network down", fun _ => none, fun _ => 0, fun _ => ""⟩

/-- Witness for C8: a run whose only repository fails to clone still
removes the work directory at the end. -/
theorem c8_witness :
    Effect.mkdtemp ∈ (run_vllm envC8w).2.2 ∧
    (∃ E, (run_vllm envC8w).2.2 = Effect.mkdtemp :: (E ++ [Effect.rmtree])) :=
  ⟨by decide, (c8_cleanup envC8w).1 (by decide)⟩

/-- **C10** (confirmed, implicit).  For a Dockerfile whose
`ARG VLLM_VERSION` line is unquoted and already holds exactly the
target version, the patch still changes the file — it normalizes the
value to double quotes — reports it as updated, and the processing goes
on to branch, commit, push and call the PR API although no version
value changed. -/
theorem c10_requote_creates_pr (env : Env) (v : Content) (hv : goodVersion v)
    (hdry : env.dryRun = false)
    (hclone : env.cloneFS "red-hat-data-services/vllm" =
      Except.ok [("Dockerfile.ubi", "ARG VLLM_VERSION=".data ++ v)])
    (hgit : env.gitResult "red-hat-data-services/vllm" = none)
    (hapi : env.apiStatus "red-hat-data-services/vllm" = 201) :
    subVllm ("ARG VLLM_VERSION=".data ++ v) v =
      "ARG VLLM_VERSION=\"".data ++ v ++ "\"".data ∧
    subVllm ("ARG VLLM_VERSION=".data ++ v) v ≠ "ARG VLLM_VERSION=".data ++ v ∧
    (update_dockerfile_version false
        [("Dockerfile.ubi", "ARG VLLM_VERSION=".data ++ v)] "Dockerfile.ubi" v).1 =
      true ∧
    (process_runtime env "vllm" v).1 =
      "✅ vllm: [PR created](" ++ env.apiUrl "red-hat-data-services/vllm" ++ ")" ∧
    (∃ b, Effect.gitNewBranch b ∈ (process_runtime env "vllm" v).2.2 ∧
      Effect.gitPush b ∈ (process_runtime env "vllm" v).2.2) ∧
    (∃ msg, Effect.gitCommit msg ∈ (process_runtime env "vllm" v).2.2) ∧
    (∃ t, Effect.prApiPost "red-hat-data-services/vllm" t ∈
      (process_runtime env "vllm" v).2.2) := by
  obtain ⟨hvne, hvc, hvh⟩ := hv
  obtain ⟨hd0, t0, hvcons, hhd⟩ := goodVersion_head ⟨hvne, hvc, hvh⟩
  have hwf : vllmWF ⟨[], " ".data, [], [], ⟨none, v, []⟩⟩ := by
    refine ⟨?_, ?_, ?_, ?_, ?_, ?_, ?_, ?_, ?_⟩
    · simp
    · show " ".data ≠ []
      decide
    · show ∀ c ∈ " ".data, pySpace c = true
      decide
    · simp
    · simp
    · exact hvne
    · exact hvc
    · simp
    · exact Or.inl rfl
  have hnv : noWsValueHead (⟨none, v, []⟩ : TailMatch) := by
    simp only [noWsValueHead]
    exact ⟨hd0, t0, hvcons, hhd⟩
  have hmatch := matchVllmLine_complete hwf hnv
  have hsplit : "ARG VLLM_VERSION=".data =
      "ARG".data ++ " ".data ++ "VLLM_VERSION".data ++ ['='] := by decide
  have hlineq : "ARG VLLM_VERSION=".data ++ v =
      assembleVllm ⟨[], " ".data, [], [], ⟨none, v, []⟩⟩ := by
    rw [hsplit]
    simp [assembleVllm, tailText, List.append_assoc]
  have hsplit2 : "ARG VLLM_VERSION=\"".data =
      "ARG".data ++ " ".data ++ "VLLM_VERSION".data ++ ['=', '"'] := by decide
  have hq1 : "\"".data = ['"'] := by decide
  have hpatch : patchVllmLine ("ARG VLLM_VERSION=".data ++ v) v =
      "ARG VLLM_VERSION=\"".data ++ v ++ "\"".data := by
    rw [hlineq]
    simp only [patchVllmLine, hmatch, vllmReplacement]
    simp [List.append_assoc]

  have hnl : '\n' ∉ "ARG VLLM_VERSION=".data ++ v := by
    intro hmem
    rcases List.mem_append.mp hmem with h1 | h1
    · exact absurd h1 (by decide)
    · have h2 := hvc '\n' h1
      simp [valueChar] at h2
  have hsub : subVllm ("ARG VLLM_VERSION=".data ++ v) v =
      "ARG VLLM_VERSION=\"".data ++ v ++ "\"".data := by
    unfold subVllm
    rw [splitLines_no_newline hnl, List.map_cons, List.map_nil, hpatch]
    rfl
  have hlen17 : ("ARG VLLM_VERSION=".data).length = 17 := by decide
  have hlen18 : ("ARG VLLM_VERSION=\"".data).length = 18 := by decide
  have hlen1 : ("\"".data).length = 1 := by decide
  have hneq : "ARG VLLM_VERSION=\"".data ++ v ++ "\"".data ≠
      "ARG VLLM_VERSION=".data ++ v := by
    intro heq
    have hl := congrArg List.length heq
    simp only [List.length_append, hlen17, hlen18, hlen1] at hl
    omega
  have hsubne : subVllm ("ARG VLLM_VERSION=".data ++ v) v ≠
      "ARG VLLM_VERSION=".data ++ v := by
    rw [hsub]; exact hneq
  have hget : fsGet [("Dockerfile.ubi", "ARG VLLM_VERSION=".data ++ v)]
      "Dockerfile.ubi" = some ("ARG VLLM_VERSION=".data ++ v) := by
    simp [fsGet]
  have hupd : update_dockerfile_version false
      [("Dockerfile.ubi", "ARG VLLM_VERSION=".data ++ v)] "Dockerfile.ubi" v =
      (true,
       fsSet [("Dockerfile.ubi", "ARG VLLM_VERSION=".data ++ v)] "Dockerfile.ubi"
         (subVllm ("ARG VLLM_VERSION=".data ++ v) v),
       [Effect.fsWrite "Dockerfile.ubi" (subVllm ("ARG VLLM_VERSION=".data ++ v) v)]) := by
    simp only [update_dockerfile_version, hget]
    rw [if_neg (fun h => hsubne (Eq.symm h))]
    simp
  have hlook : lookupA REPO_MAPPINGS "vllm" =
      some ("red-hat-data-services/vllm", ["Dockerfile.ubi"]) := by decide
  have hupd1 : (update_dockerfile_version false
      [("Dockerfile.ubi", "ARG VLLM_VERSION=".data ++ v)] "Dockerfile.ubi" v).1 =
      true := by rw [hupd]
  obtain ⟨L, hL⟩ : ∃ L, "ARG VLLM_VERSION=".data ++ v = L := ⟨_, rfl⟩
  rw [hL] at hclone hupd
  obtain ⟨W, hW⟩ : ∃ W, subVllm L v = W := ⟨_, rfl⟩
  rw [hW] at hupd
  have hpass : patchPassVllm false [("Dockerfile.ubi", L)] ["Dockerfile.ubi"] v =
      (["Dockerfile.ubi"], fsSet [("Dockerfile.ubi", L)] "Dockerfile.ubi" W,
       [Effect.fsWrite "Dockerfile.ubi" W]) := by
    simp [patchPassVllm, patchStepVllm, hupd]
  refine ⟨hsub, hsubne, hupd1, ?_, ?_, ?_, ?_⟩
  · simp [process_runtime, hlook, hclone, hpass, create_pr_vllm, hdry, hgit, hapi]
  · refine ⟨"update-vllm-version-" ++
      String.mk (List.map (fun c => if c = '.' then '-' else c) v), ?_, ?_⟩ <;>
      simp [process_runtime, hlook, hclone, hpass, create_pr_vllm, hdry, hgit, hapi]
  · refine ⟨"Update VLLM_VERSION to " ++ String.mk v ++ " for " ++ "vllm" ++
      "\n\nFiles updated:\n" ++
      String.intercalate "\n" (List.map (fun f => "- " ++ f) ["Dockerfile.ubi"]), ?_⟩
    simp [process_runtime, hlook, hclone, hpass, create_pr_vllm, hdry, hgit, hapi]
  · refine ⟨"Update VLLM_VERSION to " ++ String.mk v ++ " for " ++ "vllm", ?_⟩
    simp [process_runtime, hlook, hclone, hpass, create_pr_vllm, hdry, hgit, hapi]

def envC10w : Env :=
  ⟨"t", "main", "all", false, some [("vllm", "1.2.3".data)],
   fun _ => Except.ok [("Dockerfile.ubi", "ARG VLLM_VERSION=".data ++ "1.2.3".data)],
   fun _ => none, fun _ => 201, fun _ => "https://pr/1"⟩

/-- Witness for C10 at target version `1.2.3` over a Dockerfile whose
unquoted `ARG VLLM_VERSION` already holds `1.2.3`. -/
theorem c10_witness :
    (goodVersion "1.2.3".data ∧ envC10w.dryRun = false ∧
      envC10w.cloneFS "red-hat-data-services/vllm" =
        Except.ok [("Dockerfile.ubi", "ARG VLLM_VERSION=".data ++ "1.2.3".data)] ∧
      envC10w.gitResult "red-hat-data-services/vllm" = none ∧
      envC10w.apiStatus "red-hat-data-services/vllm" = 201) ∧
    (subVllm ("ARG VLLM_VERSION=".data ++ "1.2.3".data) "1.2.3".data =
        "ARG VLLM_VERSION=\"".data ++ "1.2.3".data ++ "\"".data ∧
      subVllm ("ARG VLLM_VERSION=".data ++ "1.2.3".data) "1.2.3".data ≠
        "ARG VLLM_VERSION=".data ++ "1.2.3".data ∧
      (update_dockerfile_version false
        [("Dockerfile.ubi", "ARG VLLM_VERSION=".data ++ "1.2.3".data)]
        "Dockerfile.ubi" "1.2.3".data).1 = true ∧
      (process_runtime envC10w "vllm" "1.2.3".data).1 =
        "✅ vllm: [PR created](" ++ envC10w.apiUrl "red-hat-data-services/vllm" ++ ")" ∧
      (∃ b, Effect.gitNewBranch b ∈ (process_runtime envC10w "vllm" "1.2.3".data).2.2 ∧
        Effect.gitPush b ∈ (process_runtime envC10w "vllm" "1.2.3".data).2.2) ∧
      (∃ msg, Effect.gitCommit msg ∈
        (process_runtime envC10w "vllm" "1.2.3".data).2.2) ∧
      (∃ t, Effect.prApiPost "red-hat-data-services/vllm" t ∈
        (process_runtime envC10w "vllm" "1.2.3".data).2.2)) :=
  ⟨⟨by decide, rfl, rfl, rfl, rfl⟩,
   c10_requote_creates_pr envC10w "1.2.3".data (by decide) rfl rfl rfl rfl⟩

end RhoaiInfra
